import Mathlib

/-!
Verification development for the video-poker rules engine of the jbr-games
repository.  The definitions below are shallow embeddings of the TypeScript
sources:

  * `src/games/deuces.ts.sav5` — the Deuces Wild classifier and advisor,
  * `src/games/spec.ts.sav5` (second document, `src/games/ddb.ts`) — the
    Double Double Bonus classifier and paytable,
  * `src/games/job.ts` — the Jacks-or-Better classifier and paytable,
  * the legacy `evaluate.ts` standard classifier,
  * `src/useGame.ts` — the round state machine (deal / draw / accuracy),
  * `src/archive/v_9_2/cards.ts` — deck construction and the Fisher–Yates
    shuffle (with the random source made an explicit parameter).

JavaScript maps keyed by rank or suit are embedded as first-occurrence
deduplicated lists (`uniq`, matching `Array.from(new Set(...))` iteration
order), and `Array.prototype.sort` (a stable sort) is embedded as
`List.insertionSort`, which is likewise stable for the comparator orders
used here.  Machine numbers are embedded as `Nat`; every subtraction in the
sources is guarded so that truncated subtraction agrees with JavaScript
arithmetic on the reachable inputs, and each such site is noted.
-/

namespace VP

/-- Suits, from `cards.ts` (`'♣' | '♦' | '♥' | '♠'`). -/
inductive Suit where
  | clubs | diamonds | hearts | spades
deriving DecidableEq, Repr

/-- Ranks, from `cards.ts` (`'A'|'K'|...|'2'`). -/
inductive Rank where
  | r2 | r3 | r4 | r5 | r6 | r7 | r8 | r9 | r10 | J | Q | K | A
deriving DecidableEq, Repr

/-- A card is a rank and a suit.  The source also carries a UI identity
string `id`, which is fully determined by rank and suit and never read by
the rules engine, so it is omitted. -/
structure Card where
  rank : Rank
  suit : Suit
deriving DecidableEq, Repr

instance : Inhabited Card := ⟨⟨Rank.r2, Suit.clubs⟩⟩

/-- The unified `HandName`/`HandOutcome` label set of `src/games/spec.ts`
(the `'Nothing'` evaluator result included as `nothing`).  The legacy
`HandRank` type of `evaluate.ts` uses the same ten standard labels and is
identified with the corresponding constructors. -/
inductive HandOutcome where
  | royalFlush | straightFlush | fourOfAKind | fullHouse
  | flush | straight | threeOfAKind | twoPair | jacksOrBetter
  | naturalRoyalFlush | wildRoyalFlush | fiveOfAKind | fourDeuces
  | fourAcesKicker | four234Kicker | fourAces | four234 | four5K
  | nothing
deriving DecidableEq, Repr

/-- Numeric rank values, the `V` record shared by the variant files. -/
def V : Rank → Nat
  | .r2 => 2 | .r3 => 3 | .r4 => 4 | .r5 => 5 | .r6 => 6 | .r7 => 7
  | .r8 => 8 | .r9 => 9 | .r10 => 10 | .J => 11 | .Q => 12 | .K => 13 | .A => 14

/-- `RANK_ORDER` of `evaluate.ts`, also used to enumerate all ranks. -/
def RANKS_ALL : List Rank :=
  [.r2, .r3, .r4, .r5, .r6, .r7, .r8, .r9, .r10, .J, .Q, .K, .A]

/-- `ROYAL_SET` of the variant files. -/
def ROYAL_SET : List Rank := [.r10, .J, .Q, .K, .A]

/-- `ROYAL_NO_TEN` of `deuces.ts.sav5`. -/
def ROYAL_NO_TEN : List Rank := [.J, .Q, .K, .A]

/-- `HIGHS` of the variant files. -/
def HIGHS : List Rank := [.J, .Q, .K, .A]

/-- First-occurrence deduplication: `Array.from(new Set(arr))` and the
`uniq` helper of `deuces.ts.sav5`; also the iteration order of
`new Set(...)` and of `Object.keys`/`Map.keys` built by `countBy`.  The
head is kept and the later duplicates of it are filtered out of the
deduplicated tail, which keeps exactly the first occurrence of every
element in order. -/
def uniq {α : Type} [DecidableEq α] : List α → List α
  | [] => []
  | a :: as => a :: (uniq as).filter (fun x => x != a)

/-- The `kComb` combination generator of `deuces.ts.sav5`, producing
combinations in the same order (those containing the head first). -/
def kComb {α : Type} : List α → Nat → List (List α)
  | _, 0 => [[]]
  | [], _ + 1 => []
  | a :: as, k + 1 => (kComb as k).map (fun pick => a :: pick) ++ kComb as (k + 1)

/-- `countBy` of the variant files, read off at one key: the number of
cards of rank `r`. -/
def countRank (cards : List Card) (r : Rank) : Nat :=
  (cards.map (fun c => c.rank)).count r

/-- `maskFromIdx` of `deuces.ts.sav5`: positional hold mask from a list of
held indices. -/
def maskFromIdx (idx : List Nat) : List Bool :=
  [0, 1, 2, 3, 4].map (fun i => idx.contains i)

/-- `idxOf` of `deuces.ts.sav5` (`cards.map((c,i)=> pred(c)? i : -1).filter(i=>i>=0)`). -/
def idxOf (cards : List Card) (p : Card → Bool) : List Nat :=
  ((cards.enum.filter (fun x => p x.2)).map (fun x => x.1))

/-- The rank stored at slot `i` of a hand (the source indexes `hand[i]`;
all uses are in range). -/
def rankAt (hand : List Card) (i : Nat) : Rank :=
  (hand.getD i default).rank

/-- `isConsecutive` of `deuces.ts.sav5`: at least two values and each
adjacent difference exactly 1.  (JavaScript subtraction of a larger from a
smaller value is negative and fails the `=== 1` test; truncated `Nat`
subtraction yields `0` and fails it likewise.) -/
def isConsecutive (vals : List Nat) : Bool :=
  decide (2 ≤ vals.length) && (vals.zip vals.tail).all (fun p => p.2 - p.1 == 1)

/-- `isNaturalRoyal` of `deuces.ts.sav5`: one suit, and the rank multiset
is exactly {10,J,Q,K,A}.  The source compares lexicographically sorted rank
strings, which is multiset equality; with all ranks enumerable this is the
per-rank count comparison below. -/
def isNaturalRoyal (cards : List Card) : Bool :=
  (uniq (cards.map (fun c => c.suit))).length == 1 &&
    RANKS_ALL.all (fun r => (cards.map (fun c => c.rank)).count r == ROYAL_SET.count r)

/-- The suits present among the non-deuce cards, in first-occurrence order
(the key set of the `bySuit` maps in `deuces.ts.sav5`). -/
def nonDeuceSuits (cards : List Card) : List Suit :=
  uniq ((cards.filter (fun c => c.rank != Rank.r2)).map (fun c => c.suit))

/-- `canMakeRoyalWithWilds` of `deuces.ts.sav5`: some suit among the
non-deuce cards misses at most `wilds` of the five royal ranks. -/
def canMakeRoyalWithWilds (cards : List Card) (wilds : Nat) : Bool :=
  (nonDeuceSuits cards).any (fun s =>
    decide ((ROYAL_SET.filter (fun r =>
      !(cards.any (fun c => c.rank != Rank.r2 && c.suit == s && c.rank == r)))).length ≤ wilds))

/-- `canMakeFlushWithWilds` of `deuces.ts.sav5`. -/
def canMakeFlushWithWilds (cards : List Card) (wilds : Nat) : Bool :=
  (nonDeuceSuits cards).any (fun s =>
    decide (5 ≤ (cards.filter (fun c => c.rank != Rank.r2 && c.suit == s)).length + wilds))

/-- The straight windows of `canMakeStraightWithWilds`: `[s..s+4]` for
`s = 2..10` and then the wheel `A-5` window. -/
def STRAIGHT_WINDOWS : List (List Nat) :=
  (List.range' 2 9).map (fun s => [s, s + 1, s + 2, s + 3, s + 4]) ++ [[14, 5, 4, 3, 2]]

/-- `canMakeStraightWithWilds` of `deuces.ts.sav5`. -/
def canMakeStraightWithWilds (vals : List Nat) (wilds : Nat) : Bool :=
  STRAIGHT_WINDOWS.any (fun w =>
    decide ((w.filter (fun v => !vals.contains v)).length ≤ wilds))

/-- `canMakeStraightFlushWithWilds` of `deuces.ts.sav5`. -/
def canMakeStraightFlushWithWilds (cards : List Card) (wilds : Nat) : Bool :=
  (nonDeuceSuits cards).any (fun s =>
    canMakeStraightWithWilds
      ((cards.filter (fun c => c.rank != Rank.r2 && c.suit == s)).map (fun c => V c.rank))
      wilds)

/-- `canMakeFullHouseWithWilds` of `deuces.ts.sav5`.  The source receives
the `countBy` record of the non-deuce cards; here the non-deuce card list
itself is passed and the record is read through `countRank` and its key
list through `uniq`.  `max(0, 3 - count)` and `max(0, 2 - count)` are
truncated subtraction, and `wilds - needTrip` is guarded by
`needTrip ≤ wilds` exactly as the source `continue`s. -/
def canMakeFullHouseWithWilds (non : List Card) (wilds : Nat) : Bool :=
  (uniq (non.map (fun c => c.rank))).any (fun a =>
    decide (3 - countRank non a ≤ wilds) &&
    (uniq (non.map (fun c => c.rank))).any (fun b =>
      b != a && decide (2 - countRank non b ≤ wilds - (3 - countRank non a))))

/-- `evaluateHandDW` of `deuces.ts.sav5`.  `maxSame` is
`Math.max(0, ...Object.values(countsByRank))`: ranks absent from the record
contribute count 0, so the fold over all thirteen ranks below computes the
same number. -/
def evaluateHandDW (cards : List Card) : HandOutcome :=
  let deuces := (cards.filter (fun c => c.rank == Rank.r2)).length
  let non := cards.filter (fun c => c.rank != Rank.r2)
  let maxSame := (RANKS_ALL.map (countRank non)).foldr max 0
  let nonVals := non.map (fun c => V c.rank)
  if deuces == 0 && isNaturalRoyal cards then .naturalRoyalFlush
  else if deuces == 4 then .fourDeuces
  else if decide (1 ≤ deuces) && canMakeRoyalWithWilds cards deuces then .wildRoyalFlush
  else if decide (5 ≤ maxSame + deuces) then .fiveOfAKind
  else if canMakeStraightFlushWithWilds cards deuces then .straightFlush
  else if decide (4 ≤ maxSame + deuces) then .fourOfAKind
  else if canMakeFullHouseWithWilds non deuces then .fullHouse
  else if canMakeFlushWithWilds cards deuces then .flush
  else if canMakeStraightWithWilds nonVals deuces then .straight
  else if decide (3 ≤ maxSame + deuces) then .threeOfAKind
  else .nothing

/-! ### Pattern finders of `deuces.ts.sav5`

Each finder loops `for (const s of new Set(hand.map(c=>c.suit)))` with an
early return; that is `List.findSome?` over the first-occurrence suit list.
Sorts with a numeric comparator `(a,b) => f(a) - f(b)` are ascending by
`f`, `(a,b) => f(b) - f(a)` descending by `f`; both are embedded as stable
insertion sorts over the corresponding total preorder. -/

/-- The suits present in the hand, in first-occurrence order. -/
def handSuits (hand : List Card) : List Suit :=
  uniq (hand.map (fun c => c.suit))

/-- Indices of cards of suit `s` that are non-deuce suited royals
(the `roy`/`idx` lists the finders build). -/
def suitedRoyalIdx (hand : List Card) (s : Suit) : List Nat :=
  ((hand.enum.filter (fun x =>
    x.2.suit == s && ROYAL_SET.contains x.2.rank && x.2.rank != Rank.r2)).map (fun x => x.1))

/-- Indices of non-deuce cards of suit `s`. -/
def suitedNonDeuceIdx (hand : List Card) (s : Suit) : List Nat :=
  ((hand.enum.filter (fun x => x.2.suit == s && x.2.rank != Rank.r2)).map (fun x => x.1))

/-- `find4ToNaturalRoyal_NoDeuce`: four-plus suited royals, held in
descending rank order, first four. -/
def find4ToNaturalRoyal_NoDeuce (hand : List Card) : Option (List Nat) :=
  (handSuits hand).findSome? (fun s =>
    let idx := suitedRoyalIdx hand s
    if decide (4 ≤ idx.length) then
      some ((idx.insertionSort (fun a b => V (rankAt hand b) ≤ V (rankAt hand a))).take 4)
    else none)

/-- `find3ToNaturalRoyal_NoDeuce`. -/
def find3ToNaturalRoyal_NoDeuce (hand : List Card) : Option (List Nat) :=
  (handSuits hand).findSome? (fun s =>
    let idx := suitedRoyalIdx hand s
    if decide (3 ≤ idx.length) then some (idx.take 3) else none)

/-- `find2ToRoyal_JQHigh_NoTen_NoDeuce`: two suited royals above the ten,
held in ascending rank order, first two. -/
def find2ToRoyal_JQHigh_NoTen_NoDeuce (hand : List Card) : Option (List Nat) :=
  (handSuits hand).findSome? (fun s =>
    let idx := ((hand.enum.filter (fun x =>
      x.2.suit == s && ROYAL_NO_TEN.contains x.2.rank && x.2.rank != Rank.r2)).map (fun x => x.1))
    if decide (2 ≤ idx.length) then
      some ((idx.insertionSort (fun a b => V (rankAt hand a) ≤ V (rankAt hand b))).take 2)
    else none)

/-- `find4ToSF_NoWild`: a 4-subset of one suit whose sorted values are
consecutive. -/
def find4ToSF_NoWild (hand : List Card) : Option (List Nat) :=
  (handSuits hand).findSome? (fun s =>
    (kComb (suitedNonDeuceIdx hand s) 4).findSome? (fun combo =>
      if isConsecutive ((combo.map (fun i => V (rankAt hand i))).insertionSort (· ≤ ·)) then
        some combo
      else none))

/-- `findAny3ToSF_Consecutive`. -/
def findAny3ToSF_Consecutive (hand : List Card) : Option (List Nat) :=
  (handSuits hand).findSome? (fun s =>
    (kComb (suitedNonDeuceIdx hand s) 3).findSome? (fun combo =>
      if isConsecutive ((combo.map (fun i => V (rankAt hand i))).insertionSort (· ≤ ·)) then
        some combo
      else none))

/-- `find4ToFlush_NoWild`: a suit holding exactly four non-deuce cards. -/
def find4ToFlush_NoWild (hand : List Card) : Option (List Nat) :=
  (handSuits hand).findSome? (fun s =>
    let idx := suitedNonDeuceIdx hand s
    if idx.length == 4 then some idx else none)

/-- `find4ToOutsideStraight_NoWild`: four distinct values spanning exactly
three with unit steps. -/
def find4ToOutsideStraight_NoWild (hand : List Card) : Option (List Nat) :=
  (kComb [0, 1, 2, 3, 4] 4).findSome? (fun combo =>
    let rs := (combo.map (fun i => V (rankAt hand i))).insertionSort (· ≤ ·)
    let u := uniq rs
    if u.length == 4 && (u.getD 3 0 - u.getD 0 0 == 3) &&
        (u.getD 1 0 - u.getD 0 0 == 1) && (u.getD 2 0 - u.getD 1 0 == 1) &&
        (u.getD 3 0 - u.getD 2 0 == 1) then
      some combo
    else none)

/-- `findAll4ToInside_NoWild_NotMissingDeuce`: all inside-straight 4-card
holds, skipping the window whose missing middle value is the deuce, with
the `seen`-set deduplication expressed as a membership test on the output
accumulated so far (the source adds to `seen` and `out` in lock step). -/
def findAll4ToInside_NoWild_NotMissingDeuce (hand : List Card) : List (List Nat) :=
  let val := fun i => V (rankAt hand i)
  let windows := (List.range' 2 9).map (fun s => [s, s + 1, s + 2, s + 3, s + 4])
  windows.foldl (fun out w =>
    let haveIdx := [0, 1, 2, 3, 4].filter (fun i => w.contains (val i))
    if decide (haveIdx.length < 4) then out
    else
      (kComb haveIdx 4).foldl (fun out combo =>
        let rs := (combo.map val).insertionSort (· ≤ ·)
        let u := uniq rs
        if u.length != 4 then out
        else if u.getD 3 0 - u.getD 0 0 != 4 then out
        else
          match [u.getD 0 0 + 1, u.getD 0 0 + 2, u.getD 0 0 + 3].find?
              (fun v => !u.contains v) with
          | none => out
          | some missing =>
            if missing == 2 then out
            else if out.any (fun seen =>
                seen.insertionSort (· ≤ ·) == combo.insertionSort (· ≤ ·)) then out
            else out ++ [combo]) out) []

/-- `pickPrimaryInsideAndAlts`: score each candidate by high-card count
then rank sum, stable-sort descending, first is primary, rest are
alternates.  The source indexes `scored[0]`; an empty candidate list never
reaches this function, and the embedding returns an empty pick there. -/
def pickPrimaryInsideAndAlts (hand : List Card) (cands : List (List Nat)) :
    List Nat × List (List Nat) :=
  let scored := cands.map (fun pick =>
    (pick,
     (pick.filter (fun i => HIGHS.contains (rankAt hand i))).length,
     pick.foldl (fun acc i => acc + V (rankAt hand i)) 0))
  let sorted := scored.insertionSort (fun a b =>
    b.2.1 < a.2.1 ∨ (a.2.1 = b.2.1 ∧ b.2.2 ≤ a.2.2))
  ((sorted.headD ([], 0, 0)).1, sorted.tail.map (fun x => x.1))

/-- `findAll4ToWRF_With1Deuce_3Royals`: per suit with three-plus royals,
the first three royals plus the deuce. -/
def findAll4ToWRF_With1Deuce_3Royals (hand : List Card) (deuceIdx : Nat) : List (List Nat) :=
  (handSuits hand).foldl (fun picks s =>
    let roy := suitedRoyalIdx hand s
    if decide (3 ≤ roy.length) then picks ++ [roy.take 3 ++ [deuceIdx]] else picks) []

/-- `pickPrimaryWRF3Royals`: stable-sort candidates descending by rank
sum. -/
def pickPrimaryWRF3Royals (hand : List Card) (cands : List (List Nat)) :
    List Nat × List (List Nat) :=
  let scored := cands.map (fun pick =>
    (pick, pick.foldl (fun acc i => acc + V (rankAt hand i)) 0))
  let sorted := scored.insertionSort (fun a b => b.2 ≤ a.2)
  ((sorted.headD ([], 0)).1, sorted.tail.map (fun x => x.1))

/-- `find4ToWRF_With2Deuces`: over the suits, keep the candidate from the
suit with the most royals (strictly improving, so the first suit reaching
the maximum wins); the candidate is the two lowest royals of that suit
plus the first two deuces.  The source seeds `bestCount = -1`; a suit
qualifies only with two-plus royals, so seeding the count with 0 is
equivalent. -/
def find4ToWRF_With2Deuces (hand : List Card) (deucesIdx : List Nat) : Option (List Nat) :=
  ((handSuits hand).foldl (fun (acc : Option (List Nat) × Nat) s =>
    let roy := suitedRoyalIdx hand s
    if decide (2 ≤ roy.length) && decide (acc.2 < roy.length) then
      (some (((roy.insertionSort (fun a b => V (rankAt hand a) ≤ V (rankAt hand b))).take 2)
          ++ deucesIdx.take 2),
       roy.length)
    else acc) (none, 0)).1

/-- `find2SuitedConsecMin`: two non-deuce cards of suit `s` with
consecutive values, the lower at least `minLow`; scanned in index order
(outer loop first). -/
def find2SuitedConsecMin (hand : List Card) (s : Suit) (minLow : Nat) : Option (List Nat) :=
  let idx := suitedNonDeuceIdx hand s
  idx.findSome? (fun a => idx.findSome? (fun b =>
    if a < b then
      let lo := min (V (rankAt hand a)) (V (rankAt hand b))
      let hi := max (V (rankAt hand a)) (V (rankAt hand b))
      if hi - lo == 1 && decide (minLow ≤ lo) then some [a, b] else none
    else none))

/-- `find3SuitedConsecMin`. -/
def find3SuitedConsecMin (hand : List Card) (s : Suit) (minLow : Nat) : Option (List Nat) :=
  (kComb (suitedNonDeuceIdx hand s) 3).findSome? (fun combo =>
    let rs := (combo.map (fun i => V (rankAt hand i))).insertionSort (· ≤ ·)
    if isConsecutive rs && decide (minLow ≤ rs.getD 0 0) then some combo else none)

/-- `findTight2SuitedForSF`: over all suits and suited non-deuce pairs,
the pair with the strictly smallest span at most 2 (first such pair
wins ties). -/
def findTight2SuitedForSF (hand : List Card) : Option (List Nat) :=
  ((handSuits hand).foldl (fun (best : Option (List Nat × Nat)) s =>
    (kComb (suitedNonDeuceIdx hand s) 2).foldl (fun best combo =>
      let rs := (combo.map (fun i => V (rankAt hand i))).insertionSort (· ≤ ·)
      let span := rs.getD 1 0 - rs.getD 0 0
      if decide (span ≤ 2) &&
          (match best with | none => true | some b => decide (span < b.2)) then
        some (combo, span)
      else best) best) none).map (fun b => b.1)

/-! ### The Deuces Wild advisor -/

/-- The normalized `CoachReturn` of `src/games/spec.ts`: a coach returns a
mask, optionally equally-optimal alternates and a rationale.  The plain
`boolean[]` arm of the union corresponds to `alts = []`, which is exactly
how `useGame.draw` normalizes it. -/
structure CoachReturn where
  mask : List Bool
  alts : List (List Bool) := []
  reason : String := ""
deriving DecidableEq, Repr

/-- The `ex` helper of `bestHoldDW_25_16_13`:
`maskFromIdx(uniq(idx).sort((a,b)=>a-b))` with a rationale. -/
def exDW (idx : List Nat) (reason : String) : CoachReturn :=
  { mask := maskFromIdx ((uniq idx).insertionSort (· ≤ ·)), reason := reason }

/-- The non-deuce cards with their slot indices
(`hand.map((c,i)=>({i,c})).filter(x=>x.c.rank!=='2')`). -/
def nonDeuceEnum (hand : List Card) : List (Nat × Card) :=
  hand.enum.filter (fun x => x.2.rank != Rank.r2)

/-- `bestHoldDW_25_16_13` of `deuces.ts.sav5`: the Deuces Wild advisor,
dispatching on the number of deuces held.  Rationale strings are abridged;
in the source two branches interpolate the evaluated rank into the string,
which no claim observes.  The two `(...)!` non-null assertions of the
source (`pairRank` under two deuces, `tripRank` under no deuces) evaluate,
when the find fails, to an `undefined` rank whose filter selects no cards;
the embedding returns the corresponding hold with no such cards, matching
that behavior (both situations are unreachable). -/
def bestHoldDW_25_16_13 (hand : List Card) : CoachReturn :=
  let deucesIdx := idxOf hand (fun c => c.rank == Rank.r2)
  let wilds := deucesIdx.length
  let evalRank := evaluateHandDW hand
  if wilds == 4 then exDW deucesIdx "4 deuces: always hold (pat Four Deuces)."
  else if wilds == 3 then
    if [HandOutcome.wildRoyalFlush, .fiveOfAKind, .straightFlush].contains evalRank then
      { mask := [true, true, true, true, true], reason := "3 deuces: pat hand." }
    else exDW deucesIdx "3 deuces: hold 3 deuces, draw 2."
  else if wilds == 2 then
    if [HandOutcome.wildRoyalFlush, .fiveOfAKind, .straightFlush].contains evalRank then
      { mask := [true, true, true, true, true], reason := "2 deuces: pat hand." }
    else if evalRank == .fourOfAKind then
      let non := nonDeuceEnum hand
      let pairRankO := (uniq (non.map (fun x => x.2.rank))).find? (fun r =>
        countRank (non.map (fun x => x.2)) r == 2)
      let pairIdx := match pairRankO with
        | some pairRank => (non.filter (fun x => x.2.rank == pairRank)).map (fun x => x.1)
        | none => []
      exDW (deucesIdx.take 2 ++ pairIdx)
        "2 deuces: quads; discard kicker, draw 1 for Five of a Kind."
    else match find4ToWRF_With2Deuces hand deucesIdx with
    | some wr4 => exDW wr4 "2 deuces: 4 to a Wild Royal."
    | none =>
      match (handSuits hand).findSome? (fun s => find2SuitedConsecMin hand s 6) with
      | some pair =>
        exDW (pair ++ deucesIdx.take 2) "2 deuces: chase Straight Flush."
      | none => exDW deucesIdx "2 deuces: default; keep deuces, draw 3."
  else if wilds == 1 then
    if [HandOutcome.wildRoyalFlush, .fiveOfAKind, .straightFlush].contains evalRank then
      { mask := [true, true, true, true, true], reason := "1 deuce: pat hand." }
    else
      let quadHold : Option (List Nat) :=
        if evalRank == .fourOfAKind then
          let non := nonDeuceEnum hand
          match (uniq (non.map (fun x => x.2.rank))).find? (fun r =>
              countRank (non.map (fun x => x.2)) r == 3) with
          | some tripRank =>
            some (((non.filter (fun x => x.2.rank == tripRank)).map (fun x => x.1))
              ++ [deucesIdx.getD 0 0])
          | none => none
        else none
      match quadHold with
      | some idx => exDW idx "1 deuce: quads; discard kicker, draw 1 for Five of a Kind."
      | none =>
      match find4ToNaturalRoyal_NoDeuce hand with
      | some nrf4 => exDW nrf4 "1 deuce: 4 to a Natural Royal."
      | none =>
      match findAll4ToWRF_With1Deuce_3Royals hand (deucesIdx.getD 0 0) with
      | picks@(_ :: _) =>
        let pa := pickPrimaryWRF3Royals hand picks
        { mask := maskFromIdx pa.1, alts := pa.2.map maskFromIdx,
          reason := "1 deuce: 4 to a Wild Royal (three suited royals + deuce)." }
      | [] =>
      if evalRank == .fullHouse then
        let non := nonDeuceEnum hand
        let pairRanks := (uniq (non.map (fun x => x.2.rank))).filter (fun r =>
          countRank (non.map (fun x => x.2)) r == 2)
        if pairRanks.length == 2 then
          let sortedPR := pairRanks.insertionSort (fun a b => V b ≤ V a)
          let idxHi := idxOf hand (fun c => c.rank == sortedPR.getD 0 Rank.r2)
          let idxLo := idxOf hand (fun c => c.rank == sortedPR.getD 1 Rank.r2)
          { mask := [true, true, true, true, true],
            alts := [maskFromIdx (idxHi ++ [deucesIdx.getD 0 0]),
                     maskFromIdx (idxLo ++ [deucesIdx.getD 0 0])],
            reason := "1 deuce: Full House; stand pat, either pair + deuce accepted." }
        else { mask := [true, true, true, true, true], reason := "1 deuce: keep Full House (pat)." }
      else
      match (handSuits hand).findSome? (fun s => find3SuitedConsecMin hand s 5) with
      | some sf3hi =>
        exDW (sf3hi ++ [deucesIdx.getD 0 0]) "1 deuce: 3 consecutive suited (min 5) + deuce."
      | none =>
      if evalRank == .straight || evalRank == .flush then
        { mask := [true, true, true, true, true], reason := "1 deuce: pat hand." }
      else
        let non := nonDeuceEnum hand
        let pairRanks := (uniq (non.map (fun x => x.2.rank))).filter (fun r =>
          countRank (non.map (fun x => x.2)) r == 2)
        if decide (1 ≤ pairRanks.length) then
          let primary := ((non.filter (fun x => x.2.rank == pairRanks.getD 0 Rank.r2)).map
            (fun x => x.1)) ++ [deucesIdx.getD 0 0]
          if decide (2 ≤ pairRanks.length) then
            let alt := ((non.filter (fun x => x.2.rank == pairRanks.getD 1 Rank.r2)).map
              (fun x => x.1)) ++ [deucesIdx.getD 0 0]
            { mask := maskFromIdx primary, alts := [maskFromIdx alt],
              reason := "1 deuce: pair + deuce; either pair is equivalent." }
          else exDW primary "1 deuce: pair + deuce; keep 3-of-a-kind, draw 2."
        else
        match findAny3ToSF_Consecutive hand with
        | some any3sf =>
          exDW (any3sf ++ [deucesIdx.getD 0 0]) "1 deuce: other Straight-Flush draw."
        | none =>
        match (handSuits hand).findSome? (fun s =>
            let roy := suitedRoyalIdx hand s
            if decide (2 ≤ roy.length) then some (roy.take 2) else none) with
        | some roy2 => exDW (roy2 ++ [deucesIdx.getD 0 0]) "1 deuce: 3 to a Royal."
        | none =>
        match (handSuits hand).findSome? (fun s => find2SuitedConsecMin hand s 6) with
        | some tight2 =>
          exDW (tight2 ++ [deucesIdx.getD 0 0]) "1 deuce: two suited consecutive (min 6) + deuce."
        | none => exDW [deucesIdx.getD 0 0] "1 deuce: deuce only; discard four."
  else
    match find4ToNaturalRoyal_NoDeuce hand with
    | some nrf4 => exDW nrf4 "0 deuces: 4 to a Natural Royal."
    | none =>
    if isNaturalRoyal hand then
      { mask := [true, true, true, true, true], reason := "0 deuces: Natural Royal (pat)." }
    else if [HandOutcome.straight, .flush, .fullHouse, .fourOfAKind,
        .straightFlush].contains evalRank then
      { mask := [true, true, true, true, true], reason := "0 deuces: pat hand." }
    else if evalRank == .threeOfAKind then
      let tripRankO := (uniq (hand.map (fun c => c.rank))).find? (fun r =>
        countRank hand r == 3)
      let tripIdx := match tripRankO with
        | some tripRank => idxOf hand (fun c => c.rank == tripRank)
        | none => []
      exDW tripIdx "0 deuces: keep trips, draw 2."
    else
      let pairRanks := (uniq (hand.map (fun c => c.rank))).filter (fun r =>
        countRank hand r == 2)
      if decide (2 ≤ pairRanks.length) then
        let sortedPR := pairRanks.insertionSort (fun a b => V b ≤ V a)
        let idxHi := idxOf hand (fun c => c.rank == sortedPR.getD 0 Rank.r2)
        let idxLo := idxOf hand (fun c => c.rank == sortedPR.getD 1 Rank.r2)
        { mask := maskFromIdx idxHi, alts := [maskFromIdx idxLo],
          reason := "0 deuces: two pair; keep either pair." }
      else if pairRanks.length == 1 then
        exDW (idxOf hand (fun c => c.rank == pairRanks.getD 0 Rank.r2))
          "0 deuces: one pair; never keep two pair."
      else
      match find4ToSF_NoWild hand with
      | some sf4 => exDW sf4 "0 deuces: 4 to a Straight Flush."
      | none =>
      match find3ToNaturalRoyal_NoDeuce hand with
      | some nrf3 => exDW nrf3 "0 deuces: 3 to a Natural Royal."
      | none =>
      match find4ToFlush_NoWild hand with
      | some fl4 => exDW fl4 "0 deuces: 4 to a Flush."
      | none =>
      match find4ToOutsideStraight_NoWild hand with
      | some st4 => exDW st4 "0 deuces: 4 to an outside straight."
      | none =>
      match findAny3ToSF_Consecutive hand with
      | some sf3 => exDW sf3 "0 deuces: 3 to a Straight Flush."
      | none =>
      match findAll4ToInside_NoWild_NotMissingDeuce hand with
      | allInside@(_ :: _) =>
        let pa := pickPrimaryInsideAndAlts hand allInside
        { mask := maskFromIdx pa.1, alts := pa.2.map maskFromIdx,
          reason := "0 deuces: 4 to an inside straight; equivalent holds OK." }
      | [] =>
      match find2ToRoyal_JQHigh_NoTen_NoDeuce hand with
      | some r2pick => exDW r2pick "0 deuces: 2 to a Royal (JQ-high suited)."
      | none =>
        { mask := [false, false, false, false, false], reason := "0 deuces: toss everything." }

/-! ### The Double Double Bonus classifier (`src/games/ddb.ts`, second
document of `spec.ts.sav5`) and the shared standard predicates, whose
bodies are identical in `ddb.ts` and `job.ts`. -/

/-- `isFlush`: every suit equals the first card's suit (`every` on an
empty list is true in both languages). -/
def isFlush (cards : List Card) : Bool :=
  cards.all (fun c => c.suit == (cards.headD default).suit)

/-- `isStraight` of `ddb.ts`/`job.ts` on numeric values: deduplicate, sort
ascending, require five distinct values spanning four, or the wheel
`[2,3,4,5,14]` (the sorted form the source compares against). -/
def isStraightVals (vals : List Nat) : Bool :=
  let s := (uniq vals).insertionSort (· ≤ ·)
  if s.length != 5 then false
  else if s.getD 4 0 - s.getD 0 0 == 4 then true
  else s == [2, 3, 4, 5, 14]

/-- `isRoyal` of `ddb.ts`/`job.ts`: every royal rank occurs in the hand. -/
def isRoyal (cards : List Card) : Bool :=
  ROYAL_SET.all (fun r => cards.any (fun c => c.rank == r))

/-- `Object.entries(countBy(ranks))`: the (rank, multiplicity) pairs in
first-occurrence key order. -/
def rankEntries (cards : List Card) : List (Rank × Nat) :=
  (uniq (cards.map (fun c => c.rank))).map (fun r => (r, countRank cards r))

/-- The comparator `(a,b) => b[1]-a[1] || V[b[0]]-V[a[0]]` of
`evaluateHandDDB` as a sort order: descending multiplicity, ties broken by
descending rank value.  On entries with distinct ranks this is a strict
total order, so the sorted list is unique. -/
def freqOrder (a b : Rank × Nat) : Prop :=
  b.2 < a.2 ∨ (a.2 = b.2 ∧ V b.1 ≤ V a.1)

instance : DecidableRel freqOrder := fun a b => by
  unfold freqOrder; infer_instance

/-- `byFreq` of `evaluateHandDDB`.  The source's `entries.sort(...)` sorts
the entry array in place, so every later read of `entries` sees this
sorted list. -/
def byFreq (cards : List Card) : List (Rank × Nat) :=
  (rankEntries cards).insertionSort freqOrder

/-- `evaluateHandDDB` of `ddb.ts`: the bonus-quad classifier, with the
kicker-dependent four-of-a-kind tiers.  Out-of-range array reads of the
source (`byFreq[0]` on an empty hand, `byFreq[1]` without a second entry,
`cards.find(...)!` without a kicker) occur on no five-card hand and are
embedded with defaults. -/
def evaluateHandDDB (cards : List Card) : HandOutcome :=
  let vals := cards.map (fun c => V c.rank)
  let flush := isFlush cards
  let straight := isStraightVals vals
  if flush && isRoyal cards then .royalFlush
  else if flush && straight then .straightFlush
  else
    let entries := byFreq cards
    let top := entries.headD (Rank.r2, 0)
    if top.2 == 4 then
      let quadRank := top.1
      let kicker := ((cards.find? (fun c => c.rank != quadRank)).getD default).rank
      if quadRank == Rank.A then
        if [Rank.r2, .r3, .r4].contains kicker then .fourAcesKicker else .fourAces
      else if quadRank == Rank.r2 || quadRank == Rank.r3 || quadRank == Rank.r4 then
        if [Rank.A, .r2, .r3, .r4].contains kicker then .four234Kicker else .four234
      else .four5K
    else if top.2 == 3 then
      if (entries.getD 1 (Rank.r2, 0)).2 == 2 then .fullHouse else .threeOfAKind
    else if flush then .flush
    else if straight then .straight
    else if top.2 == 2 then
      if (entries.filter (fun e => e.2 == 2)).length == 2 then .twoPair
      else if HIGHS.contains ((entries.find? (fun e => e.2 == 2)).getD (Rank.r2, 0)).1 then
        .jacksOrBetter
      else .nothing
    else .nothing

/-! ### The standard classifiers: `evaluateHandJOB` of `job.ts` and the
legacy `evaluateHand` of `evaluate.ts`.

Both sources compute the rank list and the flush flag first and use the
card list through nothing else, so each is embedded as a core over
`(ranks, flush)` applied to those two projections. -/

/-- `[...byRank(cards).values()].sort((a,b)=>b-a)`: rank multiplicities in
descending order. -/
def jobCounts (ranks : List Rank) : List Nat :=
  ((uniq ranks).map (fun r => ranks.count r)).insertionSort (fun a b => b ≤ a)

/-- `isRoyal` read off the rank list. -/
def isRoyalRanks (ranks : List Rank) : Bool :=
  ROYAL_SET.all (fun r => ranks.contains r)

/-- The body of `evaluateHandJOB` after computing `vals`, `flush`,
`straight`, as a function of the rank list and the flush flag. -/
def jobCore (ranks : List Rank) (flush : Bool) : HandOutcome :=
  let straight := isStraightVals (ranks.map V)
  if flush && isRoyalRanks ranks then .royalFlush
  else if flush && straight then .straightFlush
  else
    let counts := jobCounts ranks
    if counts.getD 0 0 == 4 then .fourOfAKind
    else if counts.getD 0 0 == 3 && counts.getD 1 0 == 2 then .fullHouse
    else if flush then .flush
    else if straight then .straight
    else if counts.getD 0 0 == 3 then .threeOfAKind
    else if counts.getD 0 0 == 2 && counts.getD 1 0 == 2 then .twoPair
    else if counts.getD 0 0 == 2 &&
        (uniq ranks).any (fun r => ranks.count r == 2 && HIGHS.contains r) then
      .jacksOrBetter
    else .nothing

/-- `evaluateHandJOB` of `job.ts`. -/
def evaluateHandJOB (cards : List Card) : HandOutcome :=
  jobCore (cards.map (fun c => c.rank)) (isFlush cards)

/-- `rankValue` of `evaluate.ts` (`RANK_ORDER.indexOf`). -/
def rankValue (r : Rank) : Nat := RANKS_ALL.indexOf r

/-- The rank order the legacy classifier sorts by. -/
def rankLE (a b : Rank) : Prop := rankValue a ≤ rankValue b

instance : DecidableRel rankLE := fun a b => by
  unfold rankLE; infer_instance

instance : IsTotal Rank rankLE :=
  ⟨fun a b => Nat.le_total (rankValue a) (rankValue b)⟩

instance : IsTrans Rank rankLE :=
  ⟨fun _ _ _ h1 h2 => Nat.le_trans h1 h2⟩

/-- `checkStraight` of `evaluate.ts`, on the rank list already sorted by
`rankValue`: the wheel's sorted form `[2,3,4,5,A]`, otherwise consecutive
`rankValue`s (adjacent difference exactly 1; non-positive JavaScript
differences and truncated `Nat` differences both fail the test). -/
def legacyCheckStraight (ranks : List Rank) : Bool :=
  if ranks == [Rank.r2, .r3, .r4, .r5, .A] then true
  else
    let values := ranks.map rankValue
    (values.zip values.tail).all (fun p => p.2 - p.1 == 1)

/-- `hasOfAKind` of `evaluate.ts` (some multiplicity equals `n`). -/
def legacyHasOfAKind (ranks : List Rank) (n : Nat) : Bool :=
  (uniq ranks).any (fun r => ranks.count r == n)

/-- `hasTwoPair` of `evaluate.ts`. -/
def legacyHasTwoPair (ranks : List Rank) : Bool :=
  ((uniq ranks).filter (fun r => ranks.count r == 2)).length == 2

/-- `hasFullHouse` of `evaluate.ts`. -/
def legacyHasFullHouse (ranks : List Rank) : Bool :=
  (uniq ranks).any (fun r => ranks.count r == 3) &&
    (uniq ranks).any (fun r => ranks.count r == 2)

/-- `hasJacksOrBetter` of `evaluate.ts`. -/
def legacyHasJacksOrBetter (ranks : List Rank) : Bool :=
  (uniq ranks).any (fun r => ranks.count r == 2 && HIGHS.contains r)

/-- The body of the legacy `evaluateHand` after sorting the ranks and
computing the flush flag. -/
def legacyCore (ranks : List Rank) (flush : Bool) : HandOutcome :=
  let straight := legacyCheckStraight ranks
  if flush && straight && ranks.getD 0 Rank.r2 == Rank.r10 && ranks.getD 1 Rank.r2 == Rank.J &&
      ranks.getD 2 Rank.r2 == Rank.Q && ranks.getD 3 Rank.r2 == Rank.K &&
      ranks.getD 4 Rank.r2 == Rank.A then .royalFlush
  else if flush && straight then .straightFlush
  else if legacyHasOfAKind ranks 4 then .fourOfAKind
  else if legacyHasFullHouse ranks then .fullHouse
  else if flush then .flush
  else if straight then .straight
  else if legacyHasOfAKind ranks 3 then .threeOfAKind
  else if legacyHasTwoPair ranks then .twoPair
  else if legacyHasJacksOrBetter ranks then .jacksOrBetter
  else .nothing

/-- The legacy `evaluateHand` of `evaluate.ts` (its `HandRank` labels are
identified with the matching `HandOutcome` constructors). -/
def evaluateHand (hand : List Card) : HandOutcome :=
  legacyCore ((hand.map (fun c => c.rank)).insertionSort rankLE) (isFlush hand)

/-! ### Paytables

Each table maps a hand outcome to its five payout amounts, one per bet
level; outcomes without a row (only `Nothing`, for these three literal
tables) map to `none`, which `payoutFromSpec` reads as payout 0. -/

/-- `PAYTABLE_8_5` of `job.ts` (8/5 Jacks or Better). -/
def PAYTABLE_8_5 : HandOutcome → Option (List Nat)
  | .royalFlush => some [250, 500, 750, 1000, 4000]
  | .straightFlush => some [50, 100, 150, 200, 250]
  | .fourOfAKind => some [25, 50, 75, 100, 125]
  | .fullHouse => some [8, 16, 24, 32, 40]
  | .flush => some [5, 10, 15, 20, 25]
  | .straight => some [4, 8, 12, 16, 20]
  | .threeOfAKind => some [3, 6, 9, 12, 15]
  | .twoPair => some [2, 4, 6, 8, 10]
  | .jacksOrBetter => some [1, 2, 3, 4, 5]
  | .naturalRoyalFlush => some [250, 500, 750, 1000, 4000]
  | .wildRoyalFlush => some [0, 0, 0, 0, 0]
  | .fiveOfAKind => some [0, 0, 0, 0, 0]
  | .fourDeuces => some [0, 0, 0, 0, 0]
  | _ => none

/-- `DW_PAYTABLE` of `deuces.ts.sav5` (25/16/13 Deuces Wild). -/
def DW_PAYTABLE : HandOutcome → Option (List Nat)
  | .naturalRoyalFlush => some [250, 500, 750, 1000, 4000]
  | .fourDeuces => some [200, 400, 600, 800, 1000]
  | .wildRoyalFlush => some [25, 50, 75, 100, 125]
  | .fiveOfAKind => some [16, 32, 48, 64, 80]
  | .straightFlush => some [13, 26, 39, 52, 65]
  | .fourOfAKind => some [4, 8, 12, 16, 20]
  | .fullHouse => some [3, 6, 9, 12, 15]
  | .flush => some [2, 4, 6, 8, 10]
  | .straight => some [2, 4, 6, 8, 10]
  | .threeOfAKind => some [1, 2, 3, 4, 5]
  | .royalFlush => some [0, 0, 0, 0, 0]
  | .twoPair => some [0, 0, 0, 0, 0]
  | .jacksOrBetter => some [0, 0, 0, 0, 0]
  | _ => none

/-- `DDB_PAYTABLE` of `ddb.ts` (9/6 Double Double Bonus). -/
def DDB_PAYTABLE : HandOutcome → Option (List Nat)
  | .royalFlush => some [250, 500, 750, 1000, 4000]
  | .straightFlush => some [50, 100, 150, 200, 250]
  | .fourAcesKicker => some [400, 800, 1200, 1600, 2000]
  | .four234Kicker => some [160, 320, 480, 640, 800]
  | .fourAces => some [160, 320, 480, 640, 800]
  | .four234 => some [80, 160, 240, 320, 400]
  | .four5K => some [50, 100, 150, 200, 250]
  | .fullHouse => some [9, 18, 27, 36, 45]
  | .flush => some [6, 12, 18, 24, 30]
  | .straight => some [4, 8, 12, 16, 20]
  | .threeOfAKind => some [3, 6, 9, 12, 15]
  | .twoPair => some [1, 2, 3, 4, 5]
  | .jacksOrBetter => some [1, 2, 3, 4, 5]
  | .naturalRoyalFlush => some [0, 0, 0, 0, 0]
  | .wildRoyalFlush => some [0, 0, 0, 0, 0]
  | .fiveOfAKind => some [0, 0, 0, 0, 0]
  | .fourDeuces => some [0, 0, 0, 0, 0]
  | _ => none

/-! ### Deck construction (`src/archive/v_9_2/cards.ts`)

`shuffle` is the in-place Fisher–Yates loop
`for (i = n-1; i > 0; i--) { j = floor(random()*(i+1)); swap(a[i], a[j]) }`.
The random source is injected as `rng : Nat → Nat`; at step `i` the source
draws `j = rng i % (i+1)`, which ranges over exactly the values
`floor(random()*(i+1))` can take. -/

/-- Swap the elements at positions `i` and `j` (both in range at every
call site of the shuffle). -/
def swapIdx {α : Type} (l : List α) (i j : Nat) : List α :=
  match l.get? i, l.get? j with
  | some a, some b => (l.set i b).set j a
  | _, _ => l

/-- The Fisher–Yates loop, counting `i` down from `a.length - 1` to 1. -/
def shuffleAux {α : Type} (rng : Nat → Nat) : List α → Nat → List α
  | a, 0 => a
  | a, i + 1 => shuffleAux rng (swapIdx a (i + 1) (rng (i + 1) % (i + 2))) i

/-- `shuffle` of `cards.ts`. -/
def shuffle {α : Type} (rng : Nat → Nat) (arr : List α) : List α :=
  shuffleAux rng arr (arr.length - 1)

/-- The 52 cards in construction order (`for s of suits, for r of ranks`). -/
def unshuffledDeck : List Card :=
  ([Suit.clubs, .diamonds, .hearts, .spades]).flatMap (fun s =>
    ([Rank.A, .K, .Q, .J, .r10, .r9, .r8, .r7, .r6, .r5, .r4, .r3, .r2]).map
      (fun r => ⟨r, s⟩))

/-- `newDeck` of `cards.ts`, with the injected random source. -/
def newDeck (rng : Nat → Nat) : List Card :=
  shuffle rng unshuffledDeck

/-! ### The round state machine (`src/useGame.ts`)

The hook state relevant to the rules engine is embedded as a record and
`deal`/`draw` as synchronous state transitions.  UI-only state is omitted:
the reveal mask, animation timers and speeds, the persisted
bank/rewards totals, and the paytable-highlight `initialRank` (the
`isAnimating` guard is animation timing, excluded with it; the engine
semantics of §5 of the specification treats each transition as atomic).
The persisted per-game accuracy counters are the `accCorrect`/`accTotal`
fields. -/

inductive Phase where
  | bet | deal | draw | show
deriving DecidableEq, Repr

structure GameState where
  phase : Phase
  credits : Nat
  bet : Nat
  deck : List Card
  hand : List Card
  holds : List Bool
  accCorrect : Nat
  accTotal : Nat
  promptedThisRound : Bool
  hintsEnabled : Bool
  suggestion : Option (List Bool)
  lastResult : Option (HandOutcome × Nat)
deriving DecidableEq, Repr

/-- The data of one `GameSpec` the round machine consumes (display
metadata carried by the source record is not read by `deal`/`draw` and is
omitted). -/
structure GameSpec where
  evaluateHand : List Card → HandOutcome
  bestHold : List Card → CoachReturn
  paytable : HandOutcome → Option (List Nat)

/-- `DW_SPEC_25_16_13` of `deuces.ts.sav5`, restricted to the consumed
fields. -/
def DW_SPEC_25_16_13 : GameSpec :=
  { evaluateHand := evaluateHandDW, bestHold := bestHoldDW_25_16_13, paytable := DW_PAYTABLE }

/-- `maskEquals` of `useGame.ts`: positionwise comparison of the first
five entries, out-of-range entries read as `false` (JavaScript
`!!undefined`). -/
def maskEquals (a b : List Bool) : Bool :=
  (List.range 5).all (fun i => a.getD i false == b.getD i false)

/-- `payoutFromSpec` of `useGame.ts`: missing paytable rows (in
particular `Nothing`) pay 0, the bet is clamped to `[1,5]`, and a missing
row entry reads as 0. -/
def payoutFromSpec (spec : GameSpec) (rank : HandOutcome) (bet : Nat) : Nat :=
  match spec.paytable rank with
  | none => 0
  | some row => row.getD (min 5 (max 1 bet) - 1) 0

/-- `canDeal` of `useGame.ts` (without the animation conjunct, see
above). -/
def canDeal (s : GameState) : Bool :=
  (s.phase == Phase.bet || s.phase == Phase.show) && decide (s.bet ≤ s.credits)

/-- `canDraw` of `useGame.ts` (without the animation conjunct). -/
def canDraw (s : GameState) : Bool :=
  s.phase == Phase.deal || s.phase == Phase.draw

/-- `deal` of `useGame.ts`: guarded by `canDeal`; debit the bet; replace
the deck wholesale by a fresh shuffled one when fewer than 10 cards
remain; deal the top five; reset holds, result and coaching state. -/
def deal (s : GameState) (rng : Nat → Nat) : GameState :=
  if canDeal s then
    let d0 := if s.deck.length < 10 then newDeck rng else s.deck
    { s with
      credits := s.credits - s.bet,
      deck := d0.drop 5,
      hand := d0.take 5,
      holds := List.replicate 5 false,
      phase := Phase.deal,
      lastResult := none,
      promptedThisRound := false,
      suggestion := none }
  else s

/-- `hand.map((c,i) => holds[i] ? c : d.shift()!)`: held slots keep their
card, unheld slots take successive cards from the deck head; returns the
new hand together with the remaining deck.  A missing hold entry is read
as `false` (JavaScript `undefined` is falsy); an exhausted deck would be a
runtime fault in the source (`d.shift()!` of `undefined`) and yields
`none` here. -/
def replaceUnheld : List Card → List Bool → List Card → Option (List Card × List Card)
  | [], _, deck => some ([], deck)
  | c :: cs, holds, deck =>
    if holds.headD false then
      match replaceUnheld cs holds.tail deck with
      | some (h, d) => some (c :: h, d)
      | none => none
    else
      match deck with
      | [] => none
      | x :: deck =>
        match replaceUnheld cs holds.tail deck with
        | some (h, d) => some (x :: h, d)
        | none => none

/-- `draw` of `useGame.ts`: guarded by `canDraw`; consult the advisor and
compare the player's holds against the primary mask and the alternates;
with hints on, the first suboptimal submission of a round only raises the
suggestion and returns, an unprompted optimal submission counts
correct+total, and any submission after the prompt counts total only; with
hints off every submission counts total and correct iff optimal.  Then
unheld slots are replaced from the deck head, the new hand is classified,
the payout credited, and the phase becomes `show`.  (If the deck were
exhausted mid-replacement — a source runtime fault — the embedding stops
after the counter update.) -/
def draw (s : GameState) (spec : GameSpec) : GameState :=
  if canDraw s then
    let best := spec.bestHold s.hand
    let isOptimal := maskEquals best.mask s.holds ||
      best.alts.any (fun m => maskEquals m s.holds)
    if s.hintsEnabled && !s.promptedThisRound && !isOptimal then
      { s with suggestion := some best.mask, promptedThisRound := true }
    else
      let accC := if s.hintsEnabled then
          (if !s.promptedThisRound && isOptimal then s.accCorrect + 1 else s.accCorrect)
        else (if isOptimal then s.accCorrect + 1 else s.accCorrect)
      let accT := s.accTotal + 1
      match replaceUnheld s.hand s.holds s.deck with
      | some (newHand, d) =>
        let rank := spec.evaluateHand newHand
        let payout := payoutFromSpec spec rank s.bet
        { s with
          accCorrect := accC, accTotal := accT,
          hand := newHand, deck := d,
          credits := s.credits + payout,
          lastResult := some (rank, payout),
          phase := Phase.show,
          suggestion := none }
      | none => { s with accCorrect := accC, accTotal := accT }
  else s

/-! ### Helper lemmas -/

theorem mem_uniq {α : Type} [DecidableEq α] (a : α) :
    ∀ (l : List α), a ∈ uniq l ↔ a ∈ l := by
  intro l
  induction l with
  | nil => rw [uniq]
  | cons b bs ih =>
    rw [uniq]
    by_cases hab : a = b
    · subst hab; simp
    · rw [List.mem_cons, List.mem_cons, List.mem_filter, ih]
      constructor
      · rintro (h | ⟨h, _⟩)
        · exact Or.inl h
        · exact Or.inr h
      · rintro (h | h)
        · exact Or.inl h
        · exact Or.inr ⟨h, by simp [bne_iff_ne, hab]⟩

theorem le_foldr_max (l : List Nat) (x : Nat) (hx : x ∈ l) :
    x ≤ l.foldr max 0 := by
  induction l with
  | nil => cases hx
  | cons b bs ih =>
    rcases List.mem_cons.mp hx with h | h
    · subst h; exact Nat.le_max_left _ _
    · exact Nat.le_trans (ih h) (Nat.le_max_right _ _)

theorem foldr_max_le (l : List Nat) (k : Nat) (h : ∀ x ∈ l, x ≤ k) :
    l.foldr max 0 ≤ k := by
  induction l with
  | nil => exact Nat.zero_le k
  | cons b bs ih =>
    exact Nat.max_le.mpr ⟨h b (List.mem_cons_self _ _), ih (fun x hx => h x (List.mem_cons_of_mem _ hx))⟩

theorem foldr_max_attained (l : List Nat) :
    l.foldr max 0 = 0 ∨ l.foldr max 0 ∈ l := by
  induction l with
  | nil => exact Or.inl rfl
  | cons b bs ih =>
    rw [List.foldr_cons]
    rcases Nat.le_total b (bs.foldr max 0) with h | h
    · rw [Nat.max_eq_right h]
      rcases ih with h0 | hm
      · exact Or.inl h0
      · exact Or.inr (List.mem_cons_of_mem _ hm)
    · rw [Nat.max_eq_left h]
      exact Or.inr (List.mem_cons_self _ _)

theorem find?_eq_of_unique {α : Type} (l : List α) (p : α → Bool) (a : α)
    (ha : a ∈ l) (hp : ∀ x ∈ l, p x = true ↔ x = a) : l.find? p = some a := by
  induction l with
  | nil => cases ha
  | cons b bs ih =>
    by_cases hb : p b = true
    · have : b = a := (hp b (List.mem_cons_self _ _)).mp hb
      subst this
      simp [List.find?, hb]
    · have hba : b ≠ a := fun h => hb ((hp b (List.mem_cons_self _ _)).mpr h)
      have ha' : a ∈ bs := by
        rcases List.mem_cons.mp ha with h | h
        · exact absurd h.symm hba
        · exact h
      rw [List.find?]
      rw [Bool.eq_false_iff.mpr hb]
      exact ih ha' (fun x hx => hp x (List.mem_cons_of_mem _ hx))

theorem count_add_count_le_length {α : Type} [DecidableEq α] (l : List α) (a b : α)
    (hab : a ≠ b) : l.count a + l.count b ≤ l.length := by
  induction l with
  | nil => simp
  | cons c cs ih =>
    rw [List.count_cons, List.count_cons, List.length_cons]
    rcases Bool.eq_false_or_eq_true (c == a) with h1 | h1 <;>
      rcases Bool.eq_false_or_eq_true (c == b) with h2 | h2
    · rw [beq_iff_eq] at h1 h2
      exact absurd (h1.symm.trans h2) hab
    · rw [h1, h2]; simp; omega
    · rw [h1, h2]; simp; omega
    · rw [h1, h2]; simp; omega


theorem enumFrom_countP {α : Type} (p : α → Bool) :
    ∀ (n : Nat) (l : List α), (l.enumFrom n).countP (fun x => p x.2) = l.countP p := by
  intro n l
  induction l generalizing n with
  | nil => rfl
  | cons a as ih =>
    rw [List.enumFrom, List.countP_cons, List.countP_cons, ih]

theorem idxOf_length (l : List Card) (p : Card → Bool) :
    (idxOf l p).length = l.countP p := by
  unfold idxOf
  rw [List.length_map, ← List.countP_eq_length_filter]
  exact enumFrom_countP p 0 l

theorem mem_enumFrom_iff_get? {α : Type} :
    ∀ (l : List α) (n i : Nat) (c : α),
      (i, c) ∈ l.enumFrom n ↔ n ≤ i ∧ l.get? (i - n) = some c := by
  intro l
  induction l with
  | nil => intro n i c; simp [List.enumFrom]
  | cons a as ih =>
    intro n i c
    rw [List.enumFrom, List.mem_cons, ih]
    constructor
    · rintro (h | ⟨h1, h2⟩)
      · obtain ⟨h1, h2⟩ := Prod.mk.injEq .. ▸ h
        cases h
        refine ⟨Nat.le_refl _, ?_⟩
        simp [Nat.sub_self, List.get?]
      · refine ⟨Nat.le_of_succ_le h1, ?_⟩
        have : i - n = (i - (n + 1)) + 1 := by omega
        rw [this]
        simpa [List.get?] using h2
    · rintro ⟨h1, h2⟩
      by_cases hin : i = n
      · subst hin
        simp [Nat.sub_self, List.get?] at h2
        exact Or.inl (by rw [h2])
      · have hlt : n + 1 ≤ i := by omega
        refine Or.inr ⟨hlt, ?_⟩
        have : i - n = (i - (n + 1)) + 1 := by omega
        rw [this] at h2
        simpa [List.get?] using h2

theorem mem_idxOf (l : List Card) (p : Card → Bool) (i : Nat) :
    i ∈ idxOf l p ↔ ∃ c, l.get? i = some c ∧ p c = true := by
  unfold idxOf
  rw [List.mem_map]
  constructor
  · rintro ⟨⟨j, c⟩, hmem, rfl⟩
    rw [List.mem_filter] at hmem
    obtain ⟨hmem, hpc⟩ := hmem
    have := (mem_enumFrom_iff_get? l 0 j c).mp hmem
    exact ⟨c, by simpa using this.2, hpc⟩
  · rintro ⟨c, hget, hpc⟩
    refine ⟨(i, c), ?_, rfl⟩
    rw [List.mem_filter]
    refine ⟨(mem_enumFrom_iff_get? l 0 i c).mpr ⟨Nat.zero_le _, by simpa using hget⟩, hpc⟩

theorem countRank_eq_countP (cards : List Card) (r : Rank) :
    countRank cards r = cards.countP (fun c => c.rank == r) := by
  unfold countRank
  rw [List.count_eq_countP, List.countP_map]
  rfl

theorem mem_insertionSort {α : Type} (r : α → α → Prop) [DecidableRel r]
    (l : List α) (a : α) : a ∈ l.insertionSort r ↔ a ∈ l :=
  (List.perm_insertionSort r l).mem_iff

theorem maskFromIdx_getD (idx : List Nat) (i : Nat) (h : i < 5) :
    (maskFromIdx idx).getD i false = idx.contains i := by
  unfold maskFromIdx
  interval_cases i <;> rfl

theorem swapIdx_length {α : Type} (l : List α) (i j : Nat) :
    (swapIdx l i j).length = l.length := by
  unfold swapIdx
  cases l.get? i <;> cases l.get? j <;> simp

theorem shuffleAux_length {α : Type} (rng : Nat → Nat) :
    ∀ (n : Nat) (a : List α), (shuffleAux rng a n).length = a.length := by
  intro n
  induction n with
  | zero => intro a; rfl
  | succ m ih =>
    intro a
    rw [shuffleAux, ih, swapIdx_length]

theorem newDeck_length (rng : Nat → Nat) : (newDeck rng).length = 52 := by
  unfold newDeck shuffle
  rw [shuffleAux_length]
  rfl

/-! ### Claim C5: paytable monotonicity and the royal jackpot bonus -/

/-- C5: in each of the three variant paytables every outcome row is
non-decreasing in the bet level over `[1,5]`, and the bet-5 payout of the
variant's royal outcome (`Royal Flush` for 8/5 JoB and 9/6 DDB, `Natural
Royal Flush` for 25/16/13 DW) strictly exceeds five times its bet-1
payout. -/
theorem C5_paytable_monotone_royal_bonus :
    (∀ o : HandOutcome, ∀ b : Fin 4,
      (((PAYTABLE_8_5 o).getD []).getD b.val 0 ≤ ((PAYTABLE_8_5 o).getD []).getD (b.val + 1) 0) ∧
      (((DW_PAYTABLE o).getD []).getD b.val 0 ≤ ((DW_PAYTABLE o).getD []).getD (b.val + 1) 0) ∧
      (((DDB_PAYTABLE o).getD []).getD b.val 0 ≤ ((DDB_PAYTABLE o).getD []).getD (b.val + 1) 0)) ∧
    5 * ((PAYTABLE_8_5 HandOutcome.royalFlush).getD []).getD 0 0 <
      ((PAYTABLE_8_5 HandOutcome.royalFlush).getD []).getD 4 0 ∧
    5 * ((DW_PAYTABLE HandOutcome.naturalRoyalFlush).getD []).getD 0 0 <
      ((DW_PAYTABLE HandOutcome.naturalRoyalFlush).getD []).getD 4 0 ∧
    5 * ((DDB_PAYTABLE HandOutcome.royalFlush).getD []).getD 0 0 <
      ((DDB_PAYTABLE HandOutcome.royalFlush).getD []).getD 4 0 := by
  refine ⟨?_, by decide, by decide, by decide⟩
  intro o b
  cases o <;> fin_cases b <;> refine ⟨by decide, by decide, by decide⟩

/-! ### Claim C6: deal with insufficient credits is a no-op -/

/-- C6: from phase `bet` or `show` with `credits < bet`, `deal` leaves the
whole state unchanged (in particular phase, credits, deck, hand, hold mask
and both accuracy counters), and, being a total function, raises nothing. -/
theorem C6_deal_insufficient_credits_noop (s : GameState) (rng : Nat → Nat)
    (hphase : s.phase = Phase.bet ∨ s.phase = Phase.show)
    (hcred : s.credits < s.bet) :
    deal s rng = s := by
  unfold deal
  have : canDeal s = false := by
    unfold canDeal
    have : decide (s.bet ≤ s.credits) = false := by
      simp [decide_eq_false_iff_not]
      omega
    simp [this]
  rw [this]
  rfl

/-! ### Claim C1: hands with all four deuces

The claim states the advisor holds all five cards.  In the source the
four-deuce branch returns `ex(deucesIdx, ...)`, a mask holding exactly the
four deuce slots and discarding the fifth card (the classification `Four
Deuces` and its payout do not depend on the discarded card). -/

theorem mem_uniqSort (idx : List Nat) (i : Nat) :
    i ∈ (uniq idx).insertionSort (fun a b => a ≤ b) ↔ i ∈ idx := by
  rw [mem_insertionSort, mem_uniq]

theorem exDW_mask_getD (idx : List Nat) (r : String) (i : Nat) (h : i < 5) :
    (exDW idx r).mask.getD i false = true ↔ i ∈ idx := by
  show (maskFromIdx ((uniq idx).insertionSort (fun a b => a ≤ b))).getD i false = true ↔ _
  rw [maskFromIdx_getD _ _ h]
  rw [List.contains_eq_any_beq]
  rw [List.any_eq_true]
  constructor
  · rintro ⟨x, hx, hbeq⟩
    rw [beq_iff_eq] at hbeq
    subst hbeq
    exact (mem_uniqSort idx i).mp hx
  · intro hi
    exact ⟨i, (mem_uniqSort idx i).mpr hi, by simp⟩

/-- The concrete hand refuting C1 as stated: all four deuces and an
off-suit seven. -/
def handC1 : List Card :=
  [⟨Rank.r2, Suit.spades⟩, ⟨Rank.r2, Suit.hearts⟩, ⟨Rank.r2, Suit.diamonds⟩,
   ⟨Rank.r2, Suit.clubs⟩, ⟨Rank.r7, Suit.spades⟩]

/-- Counterexample to C1 as stated: on a hand containing all four deuces
the advisor's mask holds only the four deuces, not all five cards. -/
theorem C1_counterexample :
    countRank handC1 Rank.r2 = 4 ∧
    (bestHoldDW_25_16_13 handC1).mask = [true, true, true, true, false] ∧
    (bestHoldDW_25_16_13 handC1).mask ≠ [true, true, true, true, true] :=
  ⟨by decide, by decide, by decide⟩

/-- C1 (amended): on every 5-card hand containing all four deuces the
advisor returns a mask holding exactly the deuce slots — a slot is held
iff its card is a deuce — and hence not the hold-all-five mask. -/
theorem C1_amended_four_deuces (hand : List Card) (h5 : hand.length = 5)
    (hd : countRank hand Rank.r2 = 4) :
    (∀ i, i < 5 →
      ((bestHoldDW_25_16_13 hand).mask.getD i false = true ↔ rankAt hand i = Rank.r2)) ∧
    (bestHoldDW_25_16_13 hand).mask ≠ [true, true, true, true, true] := by
  have hw : (idxOf hand (fun c => c.rank == Rank.r2)).length = 4 := by
    rw [idxOf_length, ← countRank_eq_countP, hd]
  have hbh : bestHoldDW_25_16_13 hand =
      exDW (idxOf hand (fun c => c.rank == Rank.r2))
        "4 deuces: always hold (pat Four Deuces)." := by
    simp only [bestHoldDW_25_16_13, hw]
    rfl
  have hmember : ∀ i, i < 5 →
      ((bestHoldDW_25_16_13 hand).mask.getD i false = true ↔ rankAt hand i = Rank.r2) := by
    intro i hi
    rw [hbh, exDW_mask_getD _ _ _ hi, mem_idxOf]
    have hlt : i < hand.length := by omega
    rw [List.get?_eq_get hlt]
    constructor
    · rintro ⟨c, hc, hr⟩
      rw [beq_iff_eq] at hr
      have : c = hand.get ⟨i, hlt⟩ := by
        injection hc with hc
        exact hc.symm
      subst this
      unfold rankAt
      rw [List.getD_eq_get?, List.get?_eq_get hlt]
      exact hr
    · intro hr
      refine ⟨hand.get ⟨i, hlt⟩, rfl, ?_⟩
      rw [beq_iff_eq]
      unfold rankAt at hr
      rw [List.getD_eq_get?, List.get?_eq_get hlt] at hr
      exact hr
  refine ⟨hmember, ?_⟩
  have hcount : hand.countP (fun c => c.rank == Rank.r2) = 4 := by
    rw [← countRank_eq_countP]
    exact hd
  have hex : ∃ c ∈ hand, ¬ ((fun c => c.rank == Rank.r2) c = true) := by
    by_contra hall
    push_neg at hall
    have : hand.countP (fun c => c.rank == Rank.r2) = hand.length :=
      List.countP_eq_length.mpr hall
    omega
  obtain ⟨c, hc, hnc⟩ := hex
  obtain ⟨⟨i, hilt⟩, hget⟩ := List.mem_iff_get.mp hc
  intro heq
  have hi5 : i < 5 := by omega
  have hfalse : (bestHoldDW_25_16_13 hand).mask.getD i false = true →
      rankAt hand i = Rank.r2 := (hmember i hi5).mp
  have hrank : rankAt hand i ≠ Rank.r2 := by
    unfold rankAt
    rw [List.getD_eq_get?, List.get?_eq_get hilt, hget]
    intro hr
    exact hnc (by rw [beq_iff_eq]; exact hr)
  have : (bestHoldDW_25_16_13 hand).mask.getD i false = true := by
    rw [heq]
    interval_cases i <;> rfl
  exact hrank (hfalse this)

/-- Witness for the amended C1 at the concrete four-deuce hand. -/
theorem C1_amended_witness :
    handC1.length = 5 ∧ countRank handC1 Rank.r2 = 4 ∧
    ((∀ i, i < 5 →
      ((bestHoldDW_25_16_13 handC1).mask.getD i false = true ↔ rankAt handC1 i = Rank.r2)) ∧
    (bestHoldDW_25_16_13 handC1).mask ≠ [true, true, true, true, true]) :=
  ⟨rfl, by decide, C1_amended_four_deuces handC1 rfl (by decide)⟩

/-! ### Claim C4: two deuces forming Four of a Kind are not held pat

Helper lemmas relate the enumerated non-deuce list of the advisor to the
plain filtered list of the classifier, and invert the classifier outcome
into its arithmetic side conditions. -/

theorem enumFrom_filter_map_snd (p : Card → Bool) :
    ∀ (n : Nat) (l : List Card),
      ((List.enumFrom n l).filter (fun x => p x.2)).map (fun x => x.2) = l.filter p := by
  intro n l
  induction l generalizing n with
  | nil => rfl
  | cons c cs ih =>
    rw [List.enumFrom, List.filter_cons, List.filter_cons]
    by_cases h : p c
    · rw [if_pos h, if_pos h, List.map_cons, ih]
    · rw [if_neg h, if_neg h, ih]

theorem nonDeuceEnum_map_snd (hand : List Card) :
    (nonDeuceEnum hand).map (fun x => x.2) = hand.filter (fun c => c.rank != Rank.r2) := by
  unfold nonDeuceEnum
  rw [List.enum]
  exact enumFrom_filter_map_snd (fun c => c.rank != Rank.r2) 0 hand

theorem length_split_deuce (l : List Card) :
    (l.filter (fun c => c.rank != Rank.r2)).length + l.countP (fun c => c.rank == Rank.r2)
      = l.length := by
  induction l with
  | nil => rfl
  | cons c cs ih =>
    rw [List.filter_cons, List.countP_cons]
    by_cases h : c.rank = Rank.r2
    · rw [if_neg (by simp [h]), if_pos (by simp [h])]
      simp only [List.length_cons]
      omega
    · rw [if_pos (by simp [h]), if_neg (by simp [h])]
      simp only [List.length_cons]
      omega

theorem countRank_filter_ne (l : List Card) (p : Rank) (hp : p ≠ Rank.r2) :
    countRank (l.filter (fun c => c.rank != Rank.r2)) p = countRank l p := by
  rw [countRank_eq_countP, countRank_eq_countP, List.countP_filter]
  apply List.countP_congr
  intro c _
  by_cases h : c.rank = p
  · simp [h, hp]
  · simp [h]

theorem countRank_filter_self (l : List Card) :
    countRank (l.filter (fun c => c.rank != Rank.r2)) Rank.r2 = 0 := by
  rw [countRank_eq_countP, List.countP_eq_zero]
  intro c hc
  rw [List.mem_filter] at hc
  simp only [bne_iff_ne] at hc
  simp [hc.2]

theorem mem_RANKS_ALL (r : Rank) : r ∈ RANKS_ALL := by
  cases r <;> decide

theorem evaluateHandDW_inv_fourOfAKind (cards : List Card)
    (he : evaluateHandDW cards = .fourOfAKind) :
    ((RANKS_ALL.map (countRank (cards.filter (fun c => c.rank != Rank.r2)))).foldr max 0)
        + (cards.filter (fun c => c.rank == Rank.r2)).length = 4 := by
  simp only [evaluateHandDW, decide_eq_true_eq] at he
  split at he
  · exact absurd he (by decide)
  · split at he
    · exact absurd he (by decide)
    · split at he
      · exact absurd he (by decide)
      · split at he
        · exact absurd he (by decide)
        · split at he
          · exact absurd he (by decide)
          · split at he
            · rename_i hx5 hxsf hx4
              omega
            · exfalso
              split at he
              · exact absurd he (by decide)
              · split at he
                · exact absurd he (by decide)
                · split at he
                  · exact absurd he (by decide)
                  · split at he
                    · exact absurd he (by decide)
                    · exact absurd he (by decide)

/-- C4: on every 5-card hand with exactly two deuces classified as Four
of a Kind, the advisor does not hold all five cards: there is a unique
natural pair rank `p`, and a slot is held iff its card is a deuce or of
rank `p` — the non-deuce kicker is discarded. -/
theorem C4_two_deuce_quads (hand : List Card) (h5 : hand.length = 5)
    (hd : countRank hand Rank.r2 = 2)
    (he : evaluateHandDW hand = .fourOfAKind) :
    ∃ p : Rank, p ≠ Rank.r2 ∧ countRank hand p = 2 ∧
      (∀ i, i < 5 →
        ((bestHoldDW_25_16_13 hand).mask.getD i false = true ↔
          (rankAt hand i = Rank.r2 ∨ rankAt hand i = p))) ∧
      (bestHoldDW_25_16_13 hand).mask ≠ [true, true, true, true, true] := by
  have hd2 : (hand.filter (fun c => c.rank == Rank.r2)).length = 2 := by
    rw [← List.countP_eq_length_filter, ← countRank_eq_countP]
    exact hd
  have hinv := evaluateHandDW_inv_fourOfAKind hand he
  rw [hd2] at hinv
  have hM : ((RANKS_ALL.map (countRank (hand.filter (fun c => c.rank != Rank.r2)))).foldr
      max 0) = 2 := by omega
  have hnonlen : (hand.filter (fun c => c.rank != Rank.r2)).length = 3 := by
    have := length_split_deuce hand
    rw [← countRank_eq_countP, hd, h5] at this
    omega
  -- the unique natural pair among the non-deuces
  have hattain := foldr_max_attained
    (RANKS_ALL.map (countRank (hand.filter (fun c => c.rank != Rank.r2))))
  rw [hM] at hattain
  rcases hattain with h0 | hmem
  · omega
  rw [List.mem_map] at hmem
  obtain ⟨p, _, hp2⟩ := hmem
  have hpne : p ≠ Rank.r2 := by
    intro hpe
    rw [hpe, countRank_filter_self] at hp2
    omega
  have hphand : countRank hand p = 2 := by
    rw [← countRank_filter_ne hand p hpne, hp2]
  have huniq : ∀ q : Rank, countRank (hand.filter (fun c => c.rank != Rank.r2)) q = 2 →
      q = p := by
    intro q hq
    by_contra hqp
    have hle := count_add_count_le_length
      ((hand.filter (fun c => c.rank != Rank.r2)).map (fun c => c.rank)) q p hqp
    rw [List.length_map, hnonlen] at hle
    unfold countRank at hq hp2
    omega
  -- reduce the find over the unique pair rank
  have hXrank : (nonDeuceEnum hand).map (fun x => x.2.rank)
      = (hand.filter (fun c => c.rank != Rank.r2)).map (fun c => c.rank) := by
    rw [← nonDeuceEnum_map_snd hand, List.map_map]
    rfl
  have hXcards : (nonDeuceEnum hand).map (fun x => x.2)
      = hand.filter (fun c => c.rank != Rank.r2) := nonDeuceEnum_map_snd hand
  have hfindE : (uniq ((nonDeuceEnum hand).map (fun x => x.2.rank))).find?
      (fun r => countRank ((nonDeuceEnum hand).map (fun x => x.2)) r == 2) = some p := by
    rw [hXrank, hXcards]
    apply find?_eq_of_unique
    · rw [mem_uniq]
      have : 0 < ((hand.filter (fun c => c.rank != Rank.r2)).map (fun c => c.rank)).count p := by
        unfold countRank at hp2
        omega
      exact List.count_pos_iff.mp this
    · intro x _
      constructor
      · intro hx
        rw [beq_iff_eq] at hx
        exact huniq x hx
      · intro hx
        subst hx
        rw [beq_iff_eq]
        exact hp2
  have hw : (idxOf hand (fun c => c.rank == Rank.r2)).length = 2 := by
    rw [idxOf_length, ← countRank_eq_countP]
    exact hd
  have hbh : bestHoldDW_25_16_13 hand =
      exDW ((idxOf hand (fun c => c.rank == Rank.r2)).take 2 ++
        ((nonDeuceEnum hand).filter (fun x => x.2.rank == p)).map (fun x => x.1))
        "2 deuces: quads; discard kicker, draw 1 for Five of a Kind." := by
    simp only [bestHoldDW_25_16_13, hw, he, hfindE]
    rfl
  have htake : (idxOf hand (fun c => c.rank == Rank.r2)).take 2
      = idxOf hand (fun c => c.rank == Rank.r2) :=
    List.take_of_length_le (by omega)
  have hpair : ((nonDeuceEnum hand).filter (fun x => x.2.rank == p)).map (fun x => x.1)
      = idxOf hand (fun c => c.rank == p && c.rank != Rank.r2) := by
    unfold nonDeuceEnum idxOf
    rw [List.filter_filter]
  have hmember : ∀ i, i < 5 →
      ((bestHoldDW_25_16_13 hand).mask.getD i false = true ↔
        (rankAt hand i = Rank.r2 ∨ rankAt hand i = p)) := by
    intro i hi
    have hlt : i < hand.length := by omega
    have hrAt : rankAt hand i = (hand.get ⟨i, hlt⟩).rank := by
      unfold rankAt
      rw [List.getD_eq_get?, List.get?_eq_get hlt]
      rfl
    rw [hbh, exDW_mask_getD _ _ _ hi, htake, hpair, List.mem_append, mem_idxOf, mem_idxOf,
      List.get?_eq_get hlt, hrAt]
    constructor
    · rintro (⟨c, hc, hr⟩ | ⟨c, hc, hr⟩)
      · injection hc with hc
        subst hc
        rw [beq_iff_eq] at hr
        exact Or.inl hr
      · injection hc with hc
        subst hc
        rw [Bool.and_eq_true, beq_iff_eq] at hr
        exact Or.inr hr.1
    · rintro (hr | hr)
      · exact Or.inl ⟨hand.get ⟨i, hlt⟩, rfl, by rw [beq_iff_eq]; exact hr⟩
      · refine Or.inr ⟨hand.get ⟨i, hlt⟩, rfl, ?_⟩
        rw [Bool.and_eq_true, beq_iff_eq]
        refine ⟨hr, ?_⟩
        rw [bne_iff_ne]
        rw [hr]
        exact hpne
  refine ⟨p, hpne, hphand, hmember, ?_⟩
  -- the kicker slot is discarded, so the mask is not all-true
  have hkick : ∃ c ∈ hand.filter (fun c => c.rank != Rank.r2),
      ¬ ((fun c => c.rank == p) c = true) := by
    by_contra hall
    push_neg at hall
    have : (hand.filter (fun c => c.rank != Rank.r2)).countP (fun c => c.rank == p)
        = (hand.filter (fun c => c.rank != Rank.r2)).length :=
      List.countP_eq_length.mpr hall
    rw [hnonlen, ← countRank_eq_countP, hp2] at this
    omega
  obtain ⟨c, hcmem, hcp⟩ := hkick
  have hcne2 : c.rank ≠ Rank.r2 := by
    rw [List.mem_filter] at hcmem
    simpa [bne_iff_ne] using hcmem.2
  have hcnep : c.rank ≠ p := fun h => hcp (by rw [beq_iff_eq]; exact h)
  have hchand : c ∈ hand := List.mem_of_mem_filter hcmem
  obtain ⟨⟨i, hilt⟩, hget⟩ := List.mem_iff_get.mp hchand
  intro heq
  have hi5 : i < 5 := by omega
  have hrank : ¬ (rankAt hand i = Rank.r2 ∨ rankAt hand i = p) := by
    have hrAt : rankAt hand i = (hand.get ⟨i, hilt⟩).rank := by
      unfold rankAt
      rw [List.getD_eq_get?, List.get?_eq_get hilt]
      rfl
    rw [hrAt, hget]
    rintro (h | h)
    · exact hcne2 h
    · exact hcnep h
  have : (bestHoldDW_25_16_13 hand).mask.getD i false = true := by
    rw [heq]
    interval_cases i <;> rfl
  exact hrank ((hmember i hi5).mp this)

/-- The concrete two-deuce quad hand for the C4 witness. -/
def handC4 : List Card :=
  [⟨Rank.r2, Suit.spades⟩, ⟨Rank.r2, Suit.hearts⟩, ⟨Rank.r9, Suit.diamonds⟩,
   ⟨Rank.r9, Suit.clubs⟩, ⟨Rank.K, Suit.spades⟩]

/-- Witness for C4 at the concrete hand: two deuces plus a pair of nines
classify as Four of a Kind and the advisor holds the four relevant slots,
discarding the king. -/
theorem C4_witness :
    handC4.length = 5 ∧ countRank handC4 Rank.r2 = 2 ∧
    evaluateHandDW handC4 = HandOutcome.fourOfAKind ∧
    (∃ p : Rank, p ≠ Rank.r2 ∧ countRank handC4 p = 2 ∧
      (∀ i, i < 5 →
        ((bestHoldDW_25_16_13 handC4).mask.getD i false = true ↔
          (rankAt handC4 i = Rank.r2 ∨ rankAt handC4 i = p))) ∧
      (bestHoldDW_25_16_13 handC4).mask ≠ [true, true, true, true, true]) :=
  ⟨rfl, by decide, by decide, C4_two_deuce_quads handC4 rfl (by decide) (by decide)⟩

/-! ### Claim C3: the wild-deuce classification order -/

/-- First-match evaluation of an ordered list of (test, outcome) pairs,
falling through to `Nothing`. -/
def firstMatch (checks : List (Bool × HandOutcome)) : HandOutcome :=
  match checks.find? (fun c => c.1) with
  | some c => c.2
  | none => .nothing

/-- The classification cascade exactly as the claim orders it: natural
royal with zero deuces, four deuces, royal completable using wilds, five
of a kind (max same-rank count plus deuce count at least 5), straight
flush with wilds, four of a kind with wilds, full house with wilds, flush
with wilds, straight with wilds, three of a kind with wilds, else
Nothing. -/
def dwClassificationOrder (cards : List Card) : HandOutcome :=
  let deuces := (cards.filter (fun c => c.rank == Rank.r2)).length
  let non := cards.filter (fun c => c.rank != Rank.r2)
  let maxSame := (RANKS_ALL.map (countRank non)).foldr max 0
  firstMatch [
    (deuces == 0 && isNaturalRoyal cards, .naturalRoyalFlush),
    (deuces == 4, .fourDeuces),
    (decide (1 ≤ deuces) && canMakeRoyalWithWilds cards deuces, .wildRoyalFlush),
    (decide (5 ≤ maxSame + deuces), .fiveOfAKind),
    (canMakeStraightFlushWithWilds cards deuces, .straightFlush),
    (decide (4 ≤ maxSame + deuces), .fourOfAKind),
    (canMakeFullHouseWithWilds non deuces, .fullHouse),
    (canMakeFlushWithWilds cards deuces, .flush),
    (canMakeStraightWithWilds (non.map (fun c => V c.rank)) deuces, .straight),
    (decide (3 ≤ maxSame + deuces), .threeOfAKind)]

theorem firstMatch_cascade (b1 b2 b3 b4 b5 b6 b7 b8 b9 b10 : Bool)
    (o1 o2 o3 o4 o5 o6 o7 o8 o9 o10 : HandOutcome) :
    (if b1 then o1 else if b2 then o2 else if b3 then o3 else if b4 then o4
     else if b5 then o5 else if b6 then o6 else if b7 then o7 else if b8 then o8
     else if b9 then o9 else if b10 then o10 else .nothing) =
    firstMatch [(b1, o1), (b2, o2), (b3, o3), (b4, o4), (b5, o5),
      (b6, o6), (b7, o7), (b8, o8), (b9, o9), (b10, o10)] := by
  cases b1 <;> cases b2 <;> cases b3 <;> cases b4 <;> cases b5 <;>
    cases b6 <;> cases b7 <;> cases b8 <;> cases b9 <;> cases b10 <;> rfl

/-- C3: for every hand, the wild-deuce classifier returns exactly the
first matching category of the claim's descending cascade. -/
theorem C3_classification_order (cards : List Card) :
    evaluateHandDW cards = dwClassificationOrder cards :=
  firstMatch_cascade _ _ _ _ _ _ _ _ _ _ _ _ _ _ _ _ _ _ _ _

/-! ### Claim C9: the bonus-quad kicker tiers

The lemmas below show that on a quad hand the royal and straight guards of
`evaluateHandDDB` are off, that the head of the frequency-sorted entry
list is the quad rank with multiplicity 4, and that the kicker lookup
finds the unique off-rank card. -/

theorem countP_or_disjoint (l : List Card) (p r : Card → Bool)
    (hd : ∀ c, ¬(p c = true ∧ r c = true)) :
    l.countP (fun c => p c || r c) = l.countP p + l.countP r := by
  induction l with
  | nil => rfl
  | cons c cs ih =>
    rw [List.countP_cons, List.countP_cons, List.countP_cons, ih]
    by_cases hp : p c = true
    · have hr : ¬ r c = true := fun hr => hd c ⟨hp, hr⟩
      simp [hp, hr]
      omega
    · by_cases hr : r c = true
      · simp [hp, hr]
        omega
      · simp [hp, hr]

theorem all_mem_pair_of_counts (l : List Card) (q k : Rank) (hqk : k ≠ q)
    (h4 : countRank l q = 4) (h1 : countRank l k = 1) (hlen : l.length = 5) :
    ∀ c ∈ l, c.rank = q ∨ c.rank = k := by
  have hco : l.countP (fun c => c.rank == q || c.rank == k) = 5 := by
    rw [countP_or_disjoint]
    · rw [← countRank_eq_countP, ← countRank_eq_countP, h4, h1]
    · intro c ⟨hp, hr⟩
      rw [beq_iff_eq] at hp hr
      exact hqk (hr.symm.trans hp)
  have := List.countP_eq_length.mp (by rw [hco, hlen])
  intro c hc
  have hcc := this c hc
  rw [Bool.or_eq_true, beq_iff_eq, beq_iff_eq] at hcc
  exact hcc

theorem isRoyal_quad_false (l : List Card) (q k : Rank)
    (hmem : ∀ c ∈ l, c.rank = q ∨ c.rank = k) : isRoyal l = false := by
  by_contra h
  rw [Bool.not_eq_false] at h
  unfold isRoyal at h
  rw [List.all_eq_true] at h
  have g : ∀ r : Rank, r ∈ ROYAL_SET → (r = q ∨ r = k) := by
    intro r hr
    have := h r hr
    rw [List.any_eq_true] at this
    obtain ⟨c, hc, hcr⟩ := this
    rw [beq_iff_eq] at hcr
    rcases hmem c hc with hh | hh
    · exact Or.inl (hcr ▸ hh)
    · exact Or.inr (hcr ▸ hh)
  rcases g Rank.r10 (by decide) with g1 | g1 <;>
    rcases g Rank.J (by decide) with g2 | g2 <;>
    rcases g Rank.Q (by decide) with g3 | g3 <;>
    first
      | exact absurd (g1.trans g2.symm) (by decide)
      | exact absurd (g1.trans g3.symm) (by decide)
      | exact absurd (g2.trans g3.symm) (by decide)

theorem uniq_nodup {α : Type} [DecidableEq α] : ∀ (l : List α), (uniq l).Nodup := by
  intro l
  induction l with
  | nil => exact List.nodup_nil
  | cons a as ih =>
    rw [uniq]
    refine List.Nodup.cons ?_ (List.Nodup.filter _ ih)
    intro hmem
    have := List.of_mem_filter hmem
    simp at this

theorem length_le_two_of_mem_pair {l : List Nat} {a b : Nat} (hnd : l.Nodup)
    (hm : ∀ x ∈ l, x = a ∨ x = b) : l.length ≤ 2 := by
  rcases l with _ | ⟨x, _ | ⟨y, _ | ⟨z, t⟩⟩⟩
  · simp
  · simp
  · simp
  · exfalso
    have hx := hm x (by simp)
    have hy := hm y (by simp)
    have hz := hm z (by simp)
    rw [List.nodup_cons, List.nodup_cons] at hnd
    have hxy : x ≠ y := by
      intro hh
      exact hnd.1 (by rw [hh]; simp)
    have hxz : x ≠ z := by
      intro hh
      exact hnd.1 (by rw [hh]; simp)
    have hyz : y ≠ z := by
      intro hh
      exact hnd.2.1 (by rw [hh]; simp)
    rcases hx with h | h <;> rcases hy with h2 | h2 <;> rcases hz with h3 | h3 <;> simp_all

theorem isStraightVals_quad_false (l : List Card) (q k : Rank)
    (hmem : ∀ c ∈ l, c.rank = q ∨ c.rank = k) :
    isStraightVals (l.map (fun c => V c.rank)) = false := by
  have hnd := uniq_nodup (l.map (fun c => V c.rank))
  have hm2 : ∀ x ∈ uniq (l.map (fun c => V c.rank)), x = V q ∨ x = V k := by
    intro x hx
    rw [mem_uniq] at hx
    rw [List.mem_map] at hx
    obtain ⟨c, hc, rfl⟩ := hx
    rcases hmem c hc with h | h
    · exact Or.inl (by rw [h])
    · exact Or.inr (by rw [h])
  have hlen : ((uniq (l.map (fun c => V c.rank))).insertionSort (· ≤ ·)).length ≤ 2 := by
    rw [(List.perm_insertionSort _ _).length_eq]
    exact length_le_two_of_mem_pair hnd hm2
  unfold isStraightVals
  rw [if_pos]
  rw [bne_iff_ne]
  omega

instance : IsTotal (Rank × Nat) freqOrder := by
  constructor
  intro a b
  unfold freqOrder
  rcases Nat.lt_trichotomy a.2 b.2 with h | h | h
  · exact Or.inr (Or.inl h)
  · rcases Nat.le_total (V b.1) (V a.1) with h2 | h2
    · exact Or.inl (Or.inr ⟨h, h2⟩)
    · exact Or.inr (Or.inr ⟨h.symm, h2⟩)
  · exact Or.inl (Or.inl h)

instance : IsTrans (Rank × Nat) freqOrder := by
  constructor
  intro a b c hab hbc
  unfold freqOrder at *
  rcases hab with h | ⟨h1, h2⟩ <;> rcases hbc with g | ⟨g1, g2⟩
  · exact Or.inl (by omega)
  · exact Or.inl (by omega)
  · exact Or.inl (by omega)
  · exact Or.inr ⟨by omega, by omega⟩

theorem byFreq_head_quad (hand : List Card) (q k : Rank) (hqk : k ≠ q)
    (hq4 : countRank hand q = 4) (hk1 : countRank hand k = 1)
    (hmem : ∀ c ∈ hand, c.rank = q ∨ c.rank = k) :
    (byFreq hand).headD (Rank.r2, 0) = (q, 4) := by
  have hqmem : (q, 4) ∈ rankEntries hand := by
    unfold rankEntries
    rw [List.mem_map]
    refine ⟨q, ?_, by rw [hq4]⟩
    rw [mem_uniq]
    have : 0 < (hand.map (fun c => c.rank)).count q := by
      unfold countRank at hq4
      omega
    exact List.count_pos_iff.mp this
  have hall : ∀ en ∈ rankEntries hand, en = (q, 4) ∨ en = (k, 1) := by
    intro en hen
    unfold rankEntries at hen
    rw [List.mem_map] at hen
    obtain ⟨r, hr, rfl⟩ := hen
    rw [mem_uniq, List.mem_map] at hr
    obtain ⟨c, hc, rfl⟩ := hr
    rcases hmem c hc with h | h
    · rw [h, hq4]
      exact Or.inl rfl
    · rw [h, hk1]
      exact Or.inr rfl
  have hperm : List.Perm (rankEntries hand) (byFreq hand) :=
    (List.perm_insertionSort _ _).symm
  have hqB : (q, 4) ∈ byFreq hand := hperm.mem_iff.mp hqmem
  have hsorted : List.Sorted freqOrder (byFreq hand) :=
    List.sorted_insertionSort freqOrder (rankEntries hand)
  rcases hB : byFreq hand with _ | ⟨h0, t⟩
  · rw [hB] at hqB
    cases hqB
  · rw [hB] at hqB hsorted
    show h0 = (q, 4)
    have hh0 : h0 ∈ rankEntries hand := hperm.mem_iff.mpr (by rw [hB]; simp)
    rcases hall h0 hh0 with h | h
    · exact h
    · exfalso
      subst h
      rcases List.mem_cons.mp hqB with hq2 | hq2
      · have h41 := congrArg Prod.snd hq2
        simp at h41
      · rw [List.sorted_cons] at hsorted
        have := hsorted.1 (q, 4) hq2
        unfold freqOrder at this
        rcases this with h | ⟨h1, _⟩ <;> omega



/-- C9: on every 5-card hand with four cards of one rank `q` and kicker
`x`, the bonus-quad classifier sub-classifies by `q` and the kicker rank:
quad aces split on a 2/3/4 kicker, quad 2s/3s/4s split on an A/2/3/4
kicker, and every quad of rank 5 through king is one flat tier. -/
theorem C9_ddb_quad_tiers (hand : List Card) (h5 : hand.length = 5) (q : Rank)
    (hq : countRank hand q = 4) (x : Card) (hx : x ∈ hand) (hxq : x.rank ≠ q) :
    evaluateHandDDB hand =
      (if q = Rank.A then
        (if x.rank = Rank.r2 ∨ x.rank = Rank.r3 ∨ x.rank = Rank.r4 then
          HandOutcome.fourAcesKicker else HandOutcome.fourAces)
      else if q = Rank.r2 ∨ q = Rank.r3 ∨ q = Rank.r4 then
        (if x.rank = Rank.A ∨ x.rank = Rank.r2 ∨ x.rank = Rank.r3 ∨ x.rank = Rank.r4 then
          HandOutcome.four234Kicker else HandOutcome.four234)
      else HandOutcome.four5K) := by
  have hk1 : countRank hand x.rank = 1 := by
    have hge : 0 < countRank hand x.rank := by
      unfold countRank
      exact List.count_pos_iff.mpr (List.mem_map.mpr ⟨x, hx, rfl⟩)
    have hle := count_add_count_le_length (hand.map (fun c => c.rank)) q x.rank
      (fun h => hxq h.symm)
    rw [List.length_map, h5] at hle
    unfold countRank at *
    omega
  have hmem := all_mem_pair_of_counts hand q x.rank hxq hq hk1 h5
  have hroyal := isRoyal_quad_false hand q x.rank hmem
  have hstraight := isStraightVals_quad_false hand q x.rank hmem
  have htop := byFreq_head_quad hand q x.rank hxq hq hk1 hmem
  have hfind : ∃ c, hand.find? (fun c => c.rank != q) = some c ∧ c.rank = x.rank := by
    have hsome : (hand.find? (fun c => c.rank != q)).isSome := by
      rw [List.find?_isSome]
      exact ⟨x, hx, by rw [bne_iff_ne]; exact hxq⟩
    obtain ⟨c, hc⟩ := Option.isSome_iff_exists.mp hsome
    refine ⟨c, hc, ?_⟩
    have hpc := List.find?_some hc
    have hcm := List.mem_of_find?_eq_some hc
    rw [bne_iff_ne] at hpc
    rcases hmem c hcm with h | h
    · exact absurd h hpc
    · exact h
  obtain ⟨c, hcfind, hck⟩ := hfind
  simp only [evaluateHandDDB]
  rw [hroyal, Bool.and_false, if_neg Bool.false_ne_true]
  rw [hstraight, Bool.and_false, if_neg Bool.false_ne_true]
  rw [htop]
  simp only []
  rw [if_pos (show (((q, 4) : Rank × Nat).2 == 4) = true from rfl)]
  rw [hcfind]
  simp only [Option.getD_some]
  simp only [hck]
  cases q <;> cases hxr : x.rank <;> rfl

/-- The concrete quad hand for the C9 witness: four aces and a three. -/
def handC9 : List Card :=
  [⟨Rank.A, Suit.spades⟩, ⟨Rank.A, Suit.hearts⟩, ⟨Rank.A, Suit.diamonds⟩,
   ⟨Rank.A, Suit.clubs⟩, ⟨Rank.r3, Suit.spades⟩]

/-- Witness for C9 at the concrete quad-aces hand with a 3 kicker. -/
theorem C9_witness :
    handC9.length = 5 ∧ countRank handC9 Rank.A = 4 ∧
    (⟨Rank.r3, Suit.spades⟩ : Card) ∈ handC9 ∧
    (⟨Rank.r3, Suit.spades⟩ : Card).rank ≠ Rank.A ∧
    evaluateHandDDB handC9 =
      (if Rank.A = Rank.A then
        (if (⟨Rank.r3, Suit.spades⟩ : Card).rank = Rank.r2 ∨
            (⟨Rank.r3, Suit.spades⟩ : Card).rank = Rank.r3 ∨
            (⟨Rank.r3, Suit.spades⟩ : Card).rank = Rank.r4 then
          HandOutcome.fourAcesKicker else HandOutcome.fourAces)
      else if Rank.A = Rank.r2 ∨ Rank.A = Rank.r3 ∨ Rank.A = Rank.r4 then
        (if (⟨Rank.r3, Suit.spades⟩ : Card).rank = Rank.A ∨
            (⟨Rank.r3, Suit.spades⟩ : Card).rank = Rank.r2 ∨
            (⟨Rank.r3, Suit.spades⟩ : Card).rank = Rank.r3 ∨
            (⟨Rank.r3, Suit.spades⟩ : Card).rank = Rank.r4 then
          HandOutcome.four234Kicker else HandOutcome.four234)
      else HandOutcome.four5K) :=
  ⟨rfl, by decide, by decide, by decide,
    C9_ddb_quad_tiers handC9 rfl Rank.A (by decide) ⟨Rank.r3, Suit.spades⟩
      (by decide) (by decide)⟩

/-! ### Claim C2: accuracy scoring at draw

The claim states that a submission is judged correct iff it equals the
advisor's primary mask or an alternate, and that any other submission on a
hinted round counts as attempted-incorrect.  The code disagrees on two
points: once the coaching prompt has been shown (`promptedThisRound`),
every submission — including one equal to the advisor's own mask —
increments only the total counter; and the submission that first triggers
the prompt increments neither counter. -/

/-- A concrete state refuting C2 as stated: hints on, the round already
prompted, and the player's holds equal to the advisor's primary mask. -/
def stateC2 : GameState :=
  { phase := Phase.deal, credits := 10, bet := 1,
    deck := [⟨Rank.r9, Suit.hearts⟩, ⟨Rank.r8, Suit.hearts⟩, ⟨Rank.r7, Suit.hearts⟩,
             ⟨Rank.r6, Suit.hearts⟩, ⟨Rank.r5, Suit.hearts⟩],
    hand := [⟨Rank.r2, Suit.spades⟩, ⟨Rank.r2, Suit.hearts⟩, ⟨Rank.r2, Suit.diamonds⟩,
             ⟨Rank.r2, Suit.clubs⟩, ⟨Rank.r7, Suit.spades⟩],
    holds := [true, true, true, true, false],
    accCorrect := 3, accTotal := 7,
    promptedThisRound := true, hintsEnabled := true, suggestion := none,
    lastResult := none }

/-- Counterexample to C2 as stated: in `stateC2` the submitted mask equals
the advisor's primary mask (so the claim requires correct and total to be
incremented together), yet `draw` increments only the total counter. -/
theorem C2_counterexample :
    (maskEquals (DW_SPEC_25_16_13.bestHold stateC2.hand).mask stateC2.holds ||
      (DW_SPEC_25_16_13.bestHold stateC2.hand).alts.any
        (fun m => maskEquals m stateC2.holds)) = true ∧
    (draw stateC2 DW_SPEC_25_16_13).accTotal = stateC2.accTotal + 1 ∧
    (draw stateC2 DW_SPEC_25_16_13).accCorrect = stateC2.accCorrect := by
  exact ⟨by decide, by decide, by decide⟩

/-- C2 (amended): on a `draw` that is allowed to run, the counters move as
follows.  With hints enabled, an unprompted suboptimal submission
increments neither counter (it raises the prompt); an optimal submission
on a round that is unprompted (or with hints disabled) increments both
counters; every other submission — in particular any submission, optimal
or not, after the prompt was shown — increments only the total counter. -/
theorem C2_amended_accuracy_scoring (s : GameState) (spec : GameSpec)
    (h : canDraw s = true) :
    ((draw s spec).accCorrect, (draw s spec).accTotal) =
      (if s.hintsEnabled && !s.promptedThisRound &&
          !(maskEquals (spec.bestHold s.hand).mask s.holds ||
            (spec.bestHold s.hand).alts.any (fun m => maskEquals m s.holds)) then
        (s.accCorrect, s.accTotal)
      else if (maskEquals (spec.bestHold s.hand).mask s.holds ||
            (spec.bestHold s.hand).alts.any (fun m => maskEquals m s.holds)) &&
          (!s.hintsEnabled || !s.promptedThisRound) then
        (s.accCorrect + 1, s.accTotal + 1)
      else (s.accCorrect, s.accTotal + 1)) := by
  unfold draw
  rw [h, if_pos rfl]
  cases hH : s.hintsEnabled <;> cases hP : s.promptedThisRound <;>
    cases hO : (maskEquals (spec.bestHold s.hand).mask s.holds ||
      (spec.bestHold s.hand).alts.any (fun m => maskEquals m s.holds)) <;>
    simp only [hH, hP, hO, Bool.true_and, Bool.false_and, Bool.and_true, Bool.and_false,
      Bool.not_true, Bool.not_false, Bool.true_or, Bool.false_or, Bool.or_true, Bool.or_false,
      Bool.false_eq_true, if_true, if_false, ite_true, ite_false] <;>
    first
      | rfl
      | (cases hrep : replaceUnheld s.hand s.holds s.deck with
          | none => simp [hrep]
          | some p => cases p with | mk a b => simp [hrep])

/-- Witness for the amended C2 at a concrete drawing state. -/
theorem C2_amended_witness :
    canDraw stateC2 = true ∧
    ((draw stateC2 DW_SPEC_25_16_13).accCorrect, (draw stateC2 DW_SPEC_25_16_13).accTotal) =
      (if stateC2.hintsEnabled && !stateC2.promptedThisRound &&
          !(maskEquals (DW_SPEC_25_16_13.bestHold stateC2.hand).mask stateC2.holds ||
            (DW_SPEC_25_16_13.bestHold stateC2.hand).alts.any
              (fun m => maskEquals m stateC2.holds)) then
        (stateC2.accCorrect, stateC2.accTotal)
      else if (maskEquals (DW_SPEC_25_16_13.bestHold stateC2.hand).mask stateC2.holds ||
            (DW_SPEC_25_16_13.bestHold stateC2.hand).alts.any
              (fun m => maskEquals m stateC2.holds)) &&
          (!stateC2.hintsEnabled || !stateC2.promptedThisRound) then
        (stateC2.accCorrect + 1, stateC2.accTotal + 1)
      else (stateC2.accCorrect, stateC2.accTotal + 1)) :=
  ⟨by decide, C2_amended_accuracy_scoring stateC2 DW_SPEC_25_16_13 (by decide)⟩

/-- A concrete state in phase `bet` whose credits are below the bet. -/
def stateC6 : GameState :=
  { phase := Phase.bet, credits := 0, bet := 1, deck := [], hand := [],
    holds := [], accCorrect := 0, accTotal := 0, promptedThisRound := false,
    hintsEnabled := true, suggestion := none, lastResult := none }

/-! ### Claim C7: the reshuffle threshold at deal -/

/-- C7: a `deal` that proceeds checks the undealt deck first: with fewer
than 10 cards left the hand is the top five of a fresh shuffled 52-card
deck and the rest of that fresh deck replaces the old one wholesale;
otherwise the hand is the top five of the existing deck; in both cases
exactly five cards are dealt and the hold mask is reset to all-false. -/
theorem C7_deal_reshuffle_threshold (s : GameState) (rng : Nat → Nat)
    (h : canDeal s = true) :
    (s.deck.length < 10 →
      (deal s rng).hand = (newDeck rng).take 5 ∧
      (deal s rng).deck = (newDeck rng).drop 5 ∧
      (newDeck rng).length = 52) ∧
    (10 ≤ s.deck.length →
      (deal s rng).hand = s.deck.take 5 ∧
      (deal s rng).deck = s.deck.drop 5) ∧
    (deal s rng).hand.length = 5 ∧
    (deal s rng).holds = List.replicate 5 false := by
  have hholds : (deal s rng).holds = List.replicate 5 false := by
    unfold deal; rw [h, if_pos rfl]
  by_cases hlen : s.deck.length < 10
  · have hhand : (deal s rng).hand = (newDeck rng).take 5 := by
      unfold deal; rw [h, if_pos rfl, if_pos hlen]
    have hdd : (deal s rng).deck = (newDeck rng).drop 5 := by
      unfold deal; rw [h, if_pos rfl, if_pos hlen]
    refine ⟨fun _ => ⟨hhand, hdd, newDeck_length rng⟩,
      fun h10 => absurd hlen (by omega), ?_, hholds⟩
    rw [hhand, List.length_take, newDeck_length]
    omega
  · have hhand : (deal s rng).hand = s.deck.take 5 := by
      unfold deal; rw [h, if_pos rfl, if_neg hlen]
    have hdd : (deal s rng).deck = s.deck.drop 5 := by
      unfold deal; rw [h, if_pos rfl, if_neg hlen]
    refine ⟨fun hlt => absurd hlt hlen, fun _ => ⟨hhand, hdd⟩, ?_, hholds⟩
    rw [hhand, List.length_take]
    omega

/-- A concrete state from which deal proceeds without reshuffling (12
undealt cards). -/
def stateC7 : GameState :=
  { phase := Phase.show, credits := 10, bet := 5,
    deck := [⟨Rank.A, Suit.clubs⟩, ⟨Rank.K, Suit.clubs⟩, ⟨Rank.Q, Suit.clubs⟩,
             ⟨Rank.J, Suit.clubs⟩, ⟨Rank.r10, Suit.clubs⟩, ⟨Rank.r9, Suit.clubs⟩,
             ⟨Rank.r8, Suit.clubs⟩, ⟨Rank.r7, Suit.clubs⟩, ⟨Rank.r6, Suit.clubs⟩,
             ⟨Rank.r5, Suit.clubs⟩, ⟨Rank.r4, Suit.clubs⟩, ⟨Rank.r3, Suit.clubs⟩],
    hand := [], holds := [], accCorrect := 0, accTotal := 0,
    promptedThisRound := false, hintsEnabled := true, suggestion := none,
    lastResult := none }

/-- Witness for C7 at a concrete dealable state. -/
theorem C7_witness :
    canDeal stateC7 = true ∧
    ((stateC7.deck.length < 10 →
      (deal stateC7 (fun _ => 0)).hand = (newDeck (fun _ => 0)).take 5 ∧
      (deal stateC7 (fun _ => 0)).deck = (newDeck (fun _ => 0)).drop 5 ∧
      (newDeck (fun _ => 0)).length = 52) ∧
    (10 ≤ stateC7.deck.length →
      (deal stateC7 (fun _ => 0)).hand = stateC7.deck.take 5 ∧
      (deal stateC7 (fun _ => 0)).deck = stateC7.deck.drop 5) ∧
    (deal stateC7 (fun _ => 0)).hand.length = 5 ∧
    (deal stateC7 (fun _ => 0)).holds = List.replicate 5 false) :=
  ⟨by decide, C7_deal_reshuffle_threshold stateC7 (fun _ => 0) (by decide)⟩

/-! ### Claim C8: the draw replacement frame property -/

/-- Full characterization of `replaceUnheld` when the hold mask matches
the hand length and the deck holds at least as many cards as there are
unheld slots: held slots keep their card, the `k`-th unheld slot (in slot
order) receives the `k`-th card of the deck, and the dealt cards leave the
deck head. -/
theorem replaceUnheld_spec :
    ∀ (hand : List Card) (holds : List Bool) (deck : List Card),
      holds.length = hand.length →
      (holds.filter (fun b => !b)).length ≤ deck.length →
      ∃ h' d', replaceUnheld hand holds deck = some (h', d') ∧
        d' = deck.drop (holds.filter (fun b => !b)).length ∧
        h'.length = hand.length ∧
        (∀ i, i < hand.length →
          h'.get? i = if holds.getD i false = true then hand.get? i
            else deck.get? ((holds.take i).filter (fun b => !b)).length) := by
  intro hand
  induction hand with
  | nil =>
    intro holds deck hlen _
    have : holds = [] := List.length_eq_zero.mp (by simpa using hlen)
    subst this
    exact ⟨[], deck, rfl, by simp, rfl, fun i hi => absurd hi (by simp)⟩
  | cons c cs ih =>
    intro holds deck hlen hdeck
    cases holds with
    | nil => simp at hlen
    | cons b bs =>
      have hlen' : bs.length = cs.length := by simpa using hlen
      cases b with
      | true =>
        have hdeck' : (bs.filter (fun b => !b)).length ≤ deck.length := by
          simpa using hdeck
        obtain ⟨h', d', heq, hd, hl, hidx⟩ := ih bs deck hlen' hdeck'
        refine ⟨c :: h', d', ?_, ?_, by simpa using hl, ?_⟩
        · simp [replaceUnheld, heq]
        · simpa using hd
        · intro i hi
          cases i with
          | zero => simp
          | succ j =>
            have hj : j < cs.length := by simpa using hi
            have := hidx j hj
            simpa using this
      | false =>
        have hpos : 1 ≤ ((false :: bs).filter (fun b => !b)).length := by simp
        cases deck with
        | nil =>
          exfalso
          simp at hdeck
        | cons x d =>
          have hdeck' : (bs.filter (fun b => !b)).length ≤ d.length := by
            simpa using hdeck
          obtain ⟨h', d', heq, hd, hl, hidx⟩ := ih bs d hlen' hdeck'
          refine ⟨x :: h', d', ?_, ?_, by simpa using hl, ?_⟩
          · simp [replaceUnheld, heq]
          · simpa using hd
          · intro i hi
            cases i with
            | zero => simp
            | succ j =>
              have hj : j < cs.length := by simpa using hi
              have := hidx j hj
              simpa using this

/-- C8: every `draw` that reaches the replacement step keeps each held
slot's card in place, and overwrites the unheld slots, in slot order, with
successive cards from the head of the undealt deck.  The hypothesis
`hproceed` excludes the branch where, with hints enabled and the round not
yet prompted, a suboptimal submission only raises the coaching prompt and
replaces nothing. -/
theorem C8_draw_replacement_frame (s : GameState) (spec : GameSpec)
    (hc : canDraw s = true)
    (hhand : s.hand.length = 5) (hholds : s.holds.length = 5)
    (hdeck : 5 ≤ s.deck.length)
    (hproceed : s.hintsEnabled = false ∨ s.promptedThisRound = true ∨
      (maskEquals (spec.bestHold s.hand).mask s.holds ||
        (spec.bestHold s.hand).alts.any (fun m => maskEquals m s.holds)) = true) :
    ∀ i, i < 5 →
      (s.holds.getD i false = true → (draw s spec).hand.get? i = s.hand.get? i) ∧
      (s.holds.getD i false = false →
        (draw s spec).hand.get? i =
          s.deck.get? ((s.holds.take i).filter (fun b => !b)).length) := by
  have hnp : (s.hintsEnabled && !s.promptedThisRound &&
      !(maskEquals (spec.bestHold s.hand).mask s.holds ||
        (spec.bestHold s.hand).alts.any (fun m => maskEquals m s.holds))) = false := by
    rcases hproceed with h | h | h <;> simp [h]
  have hdeck' : (s.holds.filter (fun b => !b)).length ≤ s.deck.length := by
    calc (s.holds.filter (fun b => !b)).length ≤ s.holds.length := List.length_filter_le _ _
    _ = 5 := hholds
    _ ≤ s.deck.length := hdeck
  obtain ⟨h', d', heq, _, _, hidx⟩ :=
    replaceUnheld_spec s.hand s.holds s.deck (hholds.trans hhand.symm) hdeck'
  have hdraw : (draw s spec).hand = h' := by
    unfold draw
    rw [hc]
    simp only [if_true]
    rw [hnp]
    simp only [Bool.false_eq_true, if_false, heq]
  intro i hi
  rw [hdraw]
  have := hidx i (by omega)
  constructor
  · intro hh
    rw [this, if_pos hh]
  · intro hh
    rw [this, if_neg (by rw [hh]; exact Bool.false_ne_true)]

/-- A concrete state for the C8 witness: hints off, phase `deal`, pattern
of held and unheld slots. -/
def stateC8 : GameState :=
  { phase := Phase.deal, credits := 10, bet := 1,
    deck := [⟨Rank.r9, Suit.hearts⟩, ⟨Rank.r8, Suit.hearts⟩, ⟨Rank.r7, Suit.hearts⟩,
             ⟨Rank.r6, Suit.hearts⟩, ⟨Rank.r5, Suit.hearts⟩],
    hand := [⟨Rank.A, Suit.spades⟩, ⟨Rank.A, Suit.hearts⟩, ⟨Rank.r7, Suit.diamonds⟩,
             ⟨Rank.r8, Suit.clubs⟩, ⟨Rank.r2, Suit.spades⟩],
    holds := [true, true, false, false, false],
    accCorrect := 0, accTotal := 0,
    promptedThisRound := false, hintsEnabled := false, suggestion := none,
    lastResult := none }

/-- Witness for C8 at a concrete drawing state. -/
theorem C8_witness :
    canDraw stateC8 = true ∧ stateC8.hand.length = 5 ∧ stateC8.holds.length = 5 ∧
    5 ≤ stateC8.deck.length ∧ stateC8.hintsEnabled = false ∧
    (∀ i, i < 5 →
      (stateC8.holds.getD i false = true →
        (draw stateC8 DW_SPEC_25_16_13).hand.get? i = stateC8.hand.get? i) ∧
      (stateC8.holds.getD i false = false →
        (draw stateC8 DW_SPEC_25_16_13).hand.get? i =
          stateC8.deck.get? ((stateC8.holds.take i).filter (fun b => !b)).length)) :=
  ⟨by decide, by decide, by decide, by decide, rfl,
    C8_draw_replacement_frame stateC8 DW_SPEC_25_16_13 (by decide) (by decide) (by decide)
      (by decide) (Or.inl rfl)⟩

/-- Witness for C6 at a concrete blocked state. -/
theorem C6_witness :
    (stateC6.phase = Phase.bet ∨ stateC6.phase = Phase.show) ∧
    stateC6.credits < stateC6.bet ∧
    deal stateC6 (fun _ => 0) = stateC6 :=
  ⟨Or.inl rfl, by decide,
    C6_deal_insufficient_credits_noop stateC6 (fun _ => 0) (Or.inl rfl) (by decide)⟩

/-! ### C10 infrastructure: the legacy classifier versus `evaluateHandJOB` -/

theorem rank_ne_of_rankValue_lt {a b : Rank} (h : rankValue a < rankValue b) : a ≠ b :=
  fun he => absurd (he ▸ h) (Nat.lt_irrefl _)

theorem V_add_two (r : Rank) : V r = rankValue r + 2 := by
  cases r <;> rfl

theorem V_lt_of_rankValue_lt {a b : Rank} (h : rankValue a < rankValue b) : V a < V b := by
  rw [V_add_two, V_add_two]; omega

theorem rank_eq_of_rankValue_eq : ∀ {a b : Rank}, rankValue a = rankValue b → a = b := by
  intro a b
  cases a <;> cases b <;> decide

instance : IsAntisymm Rank rankLE :=
  ⟨fun a b h1 h2 => rank_eq_of_rankValue_eq (Nat.le_antisymm h1 h2)⟩

theorem uniq_perm {α : Type} [DecidableEq α] {l l' : List α} (h : l.Perm l') :
    (uniq l).Perm (uniq l') := by
  rw [List.perm_ext_iff_of_nodup (uniq_nodup l) (uniq_nodup l')]
  intro a; rw [mem_uniq, mem_uniq]; exact h.mem_iff

theorem insertionSort_sorted_eq {α : Type} (r : α → α → Prop) [DecidableRel r]
    [IsTotal α r] [IsTrans α r] [IsAntisymm α r] (l : List α) (h : List.Sorted r l) :
    l.insertionSort r = l :=
  List.eq_of_perm_of_sorted (List.perm_insertionSort r l) (List.sorted_insertionSort r l) h

theorem insertionSort_eq_of_perm {α : Type} (r : α → α → Prop) [DecidableRel r]
    [IsTotal α r] [IsTrans α r] [IsAntisymm α r] {l l' : List α} (h : l.Perm l') :
    l.insertionSort r = l'.insertionSort r :=
  List.eq_of_perm_of_sorted
    ((List.perm_insertionSort r l).trans (h.trans (List.perm_insertionSort r l').symm))
    (List.sorted_insertionSort r l) (List.sorted_insertionSort r l')

theorem uniq_eq_self_of_nodup {α : Type} [DecidableEq α] :
    ∀ {l : List α}, l.Nodup → uniq l = l := by
  intro l
  induction l with
  | nil => intro _; rfl
  | cons a as ih =>
    intro h
    rw [List.nodup_cons] at h
    rw [uniq, ih h.2, List.filter_eq_self.mpr]
    exact fun x hx => bne_iff_ne.mpr (fun he => h.1 (he ▸ hx))

theorem isStraightVals_perm {v v' : List Nat} (h : v.Perm v') :
    isStraightVals v = isStraightVals v' := by
  unfold isStraightVals
  rw [insertionSort_eq_of_perm _ (uniq_perm h)]

theorem any_eq_of_perm {α : Type} {l l' : List α} (h : l.Perm l') (p : α → Bool) :
    l.any p = l'.any p := by
  apply Bool.eq_iff_iff.mpr
  rw [List.any_eq_true, List.any_eq_true]
  constructor <;> rintro ⟨x, hx, hp⟩
  · exact ⟨x, h.mem_iff.mp hx, hp⟩
  · exact ⟨x, h.mem_iff.mpr hx, hp⟩

theorem isRoyalRanks_perm {l l' : List Rank} (h : l.Perm l') :
    isRoyalRanks l = isRoyalRanks l' := by
  unfold isRoyalRanks
  have hc : ∀ r : Rank, l.contains r = l'.contains r := by
    intro r
    simp only [List.elem_eq_mem, h.mem_iff]
  simp only [hc]

instance : IsTotal Nat (fun a b => b ≤ a) := ⟨fun a b => Nat.le_total b a⟩

instance : IsTrans Nat (fun a b => b ≤ a) := ⟨fun _ _ _ h1 h2 => Nat.le_trans h2 h1⟩

instance : IsAntisymm Nat (fun a b => b ≤ a) := ⟨fun _ _ h1 h2 => Nat.le_antisymm h2 h1⟩

theorem jobCounts_perm {l l' : List Rank} (h : l.Perm l') :
    jobCounts l = jobCounts l' := by
  unfold jobCounts
  have hc : ∀ r : Rank, l.count r = l'.count r := fun r => h.count_eq r
  simp only [hc]
  exact insertionSort_eq_of_perm _ ((uniq_perm h).map _)

theorem jobAny_perm {l l' : List Rank} (h : l.Perm l') :
    ((uniq l).any (fun r => l.count r == 2 && HIGHS.contains r)) =
      ((uniq l').any (fun r => l'.count r == 2 && HIGHS.contains r)) := by
  have hc : ∀ r : Rank, l.count r = l'.count r := fun r => h.count_eq r
  simp only [hc]
  exact any_eq_of_perm (uniq_perm h) _

theorem jobCore_perm {l l' : List Rank} (h : l.Perm l') (f : Bool) :
    jobCore l f = jobCore l' f := by
  unfold jobCore
  rw [isStraightVals_perm (h.map V), isRoyalRanks_perm h, jobCounts_perm h, jobAny_perm h]

theorem rank_eq_of_V_eq : ∀ {a b : Rank}, V a = V b → a = b := by
  intro a b
  cases a <;> cases b <;> decide

theorem royal_subperm_of_isRoyalRanks {s : List Rank} (h : isRoyalRanks s = true) :
    ROYAL_SET.Subperm s := by
  apply List.subperm_of_subset (by decide)
  intro r hr
  rw [isRoyalRanks, List.all_eq_true] at h
  have := h r hr
  simpa [List.elem_eq_mem] using this

theorem royal_perm_of_isRoyalRanks {s : List Rank} (h5 : s.length = 5)
    (h : isRoyalRanks s = true) : ROYAL_SET.Perm s :=
  (royal_subperm_of_isRoyalRanks h).perm_of_length_le (by rw [h5]; decide)

theorem nodup_of_isRoyalRanks {s : List Rank} (h5 : s.length = 5)
    (h : isRoyalRanks s = true) : s.Nodup :=
  (royal_perm_of_isRoyalRanks h5 h).nodup_iff.mp (by decide)

theorem isRoyalRanks_eq_false_of_dup {s : List Rank} (h5 : s.length = 5)
    (hnd : ¬ s.Nodup) : isRoyalRanks s = false := by
  cases hr : isRoyalRanks s with
  | false => rfl
  | true => exact absurd (nodup_of_isRoyalRanks h5 hr) hnd

theorem isRoyalRanks_sorted_eq {s : List Rank} (h5 : s.length = 5)
    (hs : List.Sorted rankLE s) (h : isRoyalRanks s = true) :
    s = [Rank.r10, .J, .Q, .K, .A] :=
  (List.eq_of_perm_of_sorted (royal_perm_of_isRoyalRanks h5 h) (by decide) hs).symm

theorem ls_eq_js_distinct (a b c d e : Rank)
    (h1 : rankValue a < rankValue b) (h2 : rankValue b < rankValue c)
    (h3 : rankValue c < rankValue d) (h4 : rankValue d < rankValue e) :
    legacyCheckStraight [a, b, c, d, e] = isStraightVals [V a, V b, V c, V d, V e] := by
  by_cases hw : a = Rank.r2 ∧ b = Rank.r3 ∧ c = Rank.r4 ∧ d = Rank.r5 ∧ e = Rank.A
  · obtain ⟨rfl, rfl, rfl, rfl, rfl⟩ := hw
    rfl
  · have hv1 : V a < V b := V_lt_of_rankValue_lt h1
    have hv2 : V b < V c := V_lt_of_rankValue_lt h2
    have hv3 : V c < V d := V_lt_of_rankValue_lt h3
    have hv4 : V d < V e := V_lt_of_rankValue_lt h4
    have hnodup : List.Nodup [V a, V b, V c, V d, V e] := by
      refine List.Pairwise.cons ?_ (List.Pairwise.cons ?_ (List.Pairwise.cons ?_
        (List.Pairwise.cons ?_ (List.Pairwise.cons ?_ List.Pairwise.nil)))) <;>
        (intro x hx; fin_cases hx <;> omega)
    have hsorted : List.Sorted (· ≤ ·) [V a, V b, V c, V d, V e] := by
      refine List.Pairwise.cons ?_ (List.Pairwise.cons ?_ (List.Pairwise.cons ?_
        (List.Pairwise.cons ?_ (List.Pairwise.cons ?_ List.Pairwise.nil)))) <;>
        (intro x hx; fin_cases hx <;> omega)
    have hwheelV : (([V a, V b, V c, V d, V e] : List Nat) == [2, 3, 4, 5, 14]) = false := by
      apply beq_eq_false_iff_ne.mpr
      intro hEq
      apply hw
      have h0 := congrArg (fun l => List.getD l 0 0) hEq
      have hb := congrArg (fun l => List.getD l 1 0) hEq
      have hc := congrArg (fun l => List.getD l 2 0) hEq
      have hd := congrArg (fun l => List.getD l 3 0) hEq
      have he := congrArg (fun l => List.getD l 4 0) hEq
      simp only [List.getD] at h0 hb hc hd he
      exact ⟨rank_eq_of_V_eq h0, rank_eq_of_V_eq hb, rank_eq_of_V_eq hc,
        rank_eq_of_V_eq hd, rank_eq_of_V_eq he⟩
    have hwheelR : (([a, b, c, d, e] : List Rank) == [Rank.r2, .r3, .r4, .r5, .A]) = false := by
      apply beq_eq_false_iff_ne.mpr
      intro hEq
      apply hw
      injection hEq with ha hEq
      injection hEq with hb hEq
      injection hEq with hc hEq
      injection hEq with hd hEq
      injection hEq with he _
      exact ⟨ha, hb, hc, hd, he⟩
    have hsortD : ([V a, V b, V c, V d, V e] : List Nat).insertionSort (· ≤ ·) =
        [V a, V b, V c, V d, V e] := insertionSort_sorted_eq _ _ hsorted
    simp only [legacyCheckStraight, isStraightVals, hwheelR, hwheelV,
      uniq_eq_self_of_nodup hnodup, hsortD]
    simp
    apply Bool.eq_iff_iff.mpr
    simp only [Bool.and_eq_true, beq_iff_eq, decide_eq_true_eq]
    have hva := V_add_two a
    have hvb := V_add_two b
    have hvc := V_add_two c
    have hvd := V_add_two d
    have hve := V_add_two e
    constructor
    · intro h
      omega
    · intro h
      omega

theorem coreEq_p5 (a : Rank) (f : Bool) :
    legacyCore [a, a, a, a, a] f = jobCore [a, a, a, a, a] f := by
  have hroy : isRoyalRanks [a, a, a, a, a] = false :=
    isRoyalRanks_eq_false_of_dup (by rfl) (by simp)
  have hls : legacyCheckStraight [a, a, a, a, a] = false := by
    simp [legacyCheckStraight]
    rintro rfl h
    exact absurd h (by decide)
  have hu : uniq [V a, V a, V a, V a, V a] = [V a] := by
    simp [uniq]
  have hjs : isStraightVals [V a, V a, V a, V a, V a] = false := by
    simp only [isStraightVals, hu, List.length_insertionSort, List.length_cons,
      List.length_nil]
    rfl
  simp [legacyCore, jobCore, jobCounts, legacyHasOfAKind, legacyHasFullHouse,
    legacyHasTwoPair, legacyHasJacksOrBetter, uniq, hroy, hls, hjs,
    List.insertionSort, List.orderedInsert]

theorem coreEq_p2111 (a c d e : Rank) (f : Bool)
    (h1 : rankValue a < rankValue c) (h2 : rankValue c < rankValue d)
    (h3 : rankValue d < rankValue e) :
    legacyCore [a, a, c, d, e] f = jobCore [a, a, c, d, e] f := by
  have nac := rank_ne_of_rankValue_lt h1
  have nad := rank_ne_of_rankValue_lt (Nat.lt_trans h1 h2)
  have nae := rank_ne_of_rankValue_lt (Nat.lt_trans h1 (Nat.lt_trans h2 h3))
  have ncd := rank_ne_of_rankValue_lt h2
  have nce := rank_ne_of_rankValue_lt (Nat.lt_trans h2 h3)
  have nde := rank_ne_of_rankValue_lt h3
  have vac := Nat.ne_of_lt (V_lt_of_rankValue_lt h1)
  have vad := Nat.ne_of_lt (V_lt_of_rankValue_lt (Nat.lt_trans h1 h2))
  have vae := Nat.ne_of_lt (V_lt_of_rankValue_lt (Nat.lt_trans h1 (Nat.lt_trans h2 h3)))
  have vcd := Nat.ne_of_lt (V_lt_of_rankValue_lt h2)
  have vce := Nat.ne_of_lt (V_lt_of_rankValue_lt (Nat.lt_trans h2 h3))
  have vde := Nat.ne_of_lt (V_lt_of_rankValue_lt h3)
  have hroy : isRoyalRanks [a, a, c, d, e] = false :=
    isRoyalRanks_eq_false_of_dup (by rfl) (by simp)
  have hls : legacyCheckStraight [a, a, c, d, e] = false := by
    simp [legacyCheckStraight]
    rintro rfl h
    exact absurd h (by decide)
  have hu : uniq [V a, V a, V c, V d, V e] = [V a, V c, V d, V e] := by
    simp [uniq, vac, vad, vae, vcd, vce, vde, vac.symm, vad.symm, vae.symm,
      vcd.symm, vce.symm, vde.symm]
  have hjs : isStraightVals [V a, V a, V c, V d, V e] = false := by
    simp only [isStraightVals, hu, List.length_insertionSort, List.length_cons,
      List.length_nil]
    rfl
  simp [legacyCore, jobCore, jobCounts, legacyHasOfAKind, legacyHasFullHouse,
    legacyHasTwoPair, legacyHasJacksOrBetter, uniq, hroy, hls, hjs,
    List.insertionSort, List.orderedInsert,
    nac, nad, nae, ncd, nce, nde, nac.symm, nad.symm, nae.symm, ncd.symm,
    nce.symm, nde.symm]

theorem rankValue_le_12 (r : Rank) : rankValue r ≤ 12 := by
  cases r <;> decide

theorem coreEq_p41 (a e : Rank) (f : Bool) (h1 : rankValue a < rankValue e) :
    legacyCore [a, a, a, a, e] f = jobCore [a, a, a, a, e] f := by
  have nae := rank_ne_of_rankValue_lt h1
  have vae := Nat.ne_of_lt (V_lt_of_rankValue_lt h1)
  have hroy : isRoyalRanks [a, a, a, a, e] = false :=
    isRoyalRanks_eq_false_of_dup (by rfl) (by simp)
  have hls : legacyCheckStraight [a, a, a, a, e] = false := by
    simp [legacyCheckStraight]
    rintro rfl h
    exact absurd h (by decide)
  have hu : uniq [V a, V a, V a, V a, V e] = [V a, V e] := by
    simp [uniq, vae, vae.symm]
  have hjs : isStraightVals [V a, V a, V a, V a, V e] = false := by
    simp only [isStraightVals, hu, List.length_insertionSort, List.length_cons,
      List.length_nil]
    rfl
  simp [legacyCore, jobCore, jobCounts, legacyHasOfAKind, legacyHasFullHouse,
    legacyHasTwoPair, legacyHasJacksOrBetter, uniq, hroy, hls, hjs,
    List.insertionSort, List.orderedInsert, nae, nae.symm]

theorem coreEq_p14 (a e : Rank) (f : Bool) (h1 : rankValue a < rankValue e) :
    legacyCore [a, e, e, e, e] f = jobCore [a, e, e, e, e] f := by
  have nae := rank_ne_of_rankValue_lt h1
  have vae := Nat.ne_of_lt (V_lt_of_rankValue_lt h1)
  have hroy : isRoyalRanks [a, e, e, e, e] = false :=
    isRoyalRanks_eq_false_of_dup (by rfl) (by simp)
  have hls : legacyCheckStraight [a, e, e, e, e] = false := by
    simp [legacyCheckStraight]
    rintro _ rfl h
    exact absurd h (by decide)
  have hu : uniq [V a, V e, V e, V e, V e] = [V a, V e] := by
    simp [uniq, vae, vae.symm]
  have hjs : isStraightVals [V a, V e, V e, V e, V e] = false := by
    simp only [isStraightVals, hu, List.length_insertionSort, List.length_cons,
      List.length_nil]
    rfl
  simp [legacyCore, jobCore, jobCounts, legacyHasOfAKind, legacyHasFullHouse,
    legacyHasTwoPair, legacyHasJacksOrBetter, uniq, hroy, hls, hjs,
    List.insertionSort, List.orderedInsert, nae, nae.symm]

theorem coreEq_p32 (a d : Rank) (f : Bool) (h1 : rankValue a < rankValue d) :
    legacyCore [a, a, a, d, d] f = jobCore [a, a, a, d, d] f := by
  have nad := rank_ne_of_rankValue_lt h1
  have vad := Nat.ne_of_lt (V_lt_of_rankValue_lt h1)
  have hroy : isRoyalRanks [a, a, a, d, d] = false :=
    isRoyalRanks_eq_false_of_dup (by rfl) (by simp)
  have hls : legacyCheckStraight [a, a, a, d, d] = false := by
    simp [legacyCheckStraight]
    rintro rfl h
    exact absurd h (by decide)
  have hu : uniq [V a, V a, V a, V d, V d] = [V a, V d] := by
    simp [uniq, vad, vad.symm]
  have hjs : isStraightVals [V a, V a, V a, V d, V d] = false := by
    simp only [isStraightVals, hu, List.length_insertionSort, List.length_cons,
      List.length_nil]
    rfl
  simp [legacyCore, jobCore, jobCounts, legacyHasOfAKind, legacyHasFullHouse,
    legacyHasTwoPair, legacyHasJacksOrBetter, uniq, hroy, hls, hjs,
    List.insertionSort, List.orderedInsert, nad, nad.symm]

theorem coreEq_p23 (a c : Rank) (f : Bool) (h1 : rankValue a < rankValue c) :
    legacyCore [a, a, c, c, c] f = jobCore [a, a, c, c, c] f := by
  have nac := rank_ne_of_rankValue_lt h1
  have vac := Nat.ne_of_lt (V_lt_of_rankValue_lt h1)
  have hroy : isRoyalRanks [a, a, c, c, c] = false :=
    isRoyalRanks_eq_false_of_dup (by rfl) (by simp)
  have hls : legacyCheckStraight [a, a, c, c, c] = false := by
    simp [legacyCheckStraight]
    rintro rfl h
    exact absurd h (by decide)
  have hu : uniq [V a, V a, V c, V c, V c] = [V a, V c] := by
    simp [uniq, vac, vac.symm]
  have hjs : isStraightVals [V a, V a, V c, V c, V c] = false := by
    simp only [isStraightVals, hu, List.length_insertionSort, List.length_cons,
      List.length_nil]
    rfl
  simp [legacyCore, jobCore, jobCounts, legacyHasOfAKind, legacyHasFullHouse,
    legacyHasTwoPair, legacyHasJacksOrBetter, uniq, hroy, hls, hjs,
    List.insertionSort, List.orderedInsert, nac, nac.symm]

theorem coreEq_p311 (a d e : Rank) (f : Bool)
    (h1 : rankValue a < rankValue d) (h2 : rankValue d < rankValue e) :
    legacyCore [a, a, a, d, e] f = jobCore [a, a, a, d, e] f := by
  have nad := rank_ne_of_rankValue_lt h1
  have nae := rank_ne_of_rankValue_lt (Nat.lt_trans h1 h2)
  have nde := rank_ne_of_rankValue_lt h2
  have vad := Nat.ne_of_lt (V_lt_of_rankValue_lt h1)
  have vae := Nat.ne_of_lt (V_lt_of_rankValue_lt (Nat.lt_trans h1 h2))
  have vde := Nat.ne_of_lt (V_lt_of_rankValue_lt h2)
  have hroy : isRoyalRanks [a, a, a, d, e] = false :=
    isRoyalRanks_eq_false_of_dup (by rfl) (by simp)
  have hls : legacyCheckStraight [a, a, a, d, e] = false := by
    simp [legacyCheckStraight]
    rintro rfl h
    exact absurd h (by decide)
  have hu : uniq [V a, V a, V a, V d, V e] = [V a, V d, V e] := by
    simp [uniq, vad, vae, vde, vad.symm, vae.symm, vde.symm]
  have hjs : isStraightVals [V a, V a, V a, V d, V e] = false := by
    simp only [isStraightVals, hu, List.length_insertionSort, List.length_cons,
      List.length_nil]
    rfl
  simp [legacyCore, jobCore, jobCounts, legacyHasOfAKind, legacyHasFullHouse,
    legacyHasTwoPair, legacyHasJacksOrBetter, uniq, hroy, hls, hjs,
    List.insertionSort, List.orderedInsert, nad, nae, nde, nad.symm, nae.symm, nde.symm]

theorem coreEq_p131 (a b e : Rank) (f : Bool)
    (h1 : rankValue a < rankValue b) (h2 : rankValue b < rankValue e) :
    legacyCore [a, b, b, b, e] f = jobCore [a, b, b, b, e] f := by
  have nab := rank_ne_of_rankValue_lt h1
  have nae := rank_ne_of_rankValue_lt (Nat.lt_trans h1 h2)
  have nbe := rank_ne_of_rankValue_lt h2
  have vab := Nat.ne_of_lt (V_lt_of_rankValue_lt h1)
  have vae := Nat.ne_of_lt (V_lt_of_rankValue_lt (Nat.lt_trans h1 h2))
  have vbe := Nat.ne_of_lt (V_lt_of_rankValue_lt h2)
  have hroy : isRoyalRanks [a, b, b, b, e] = false :=
    isRoyalRanks_eq_false_of_dup (by rfl) (by simp)
  have hls : legacyCheckStraight [a, b, b, b, e] = false := by
    simp [legacyCheckStraight]
    rintro _ rfl h
    exact absurd h (by decide)
  have hu : uniq [V a, V b, V b, V b, V e] = [V a, V b, V e] := by
    simp [uniq, vab, vae, vbe, vab.symm, vae.symm, vbe.symm]
  have hjs : isStraightVals [V a, V b, V b, V b, V e] = false := by
    simp only [isStraightVals, hu, List.length_insertionSort, List.length_cons,
      List.length_nil]
    rfl
  simp [legacyCore, jobCore, jobCounts, legacyHasOfAKind, legacyHasFullHouse,
    legacyHasTwoPair, legacyHasJacksOrBetter, uniq, hroy, hls, hjs,
    List.insertionSort, List.orderedInsert, nab, nae, nbe, nab.symm, nae.symm, nbe.symm]

theorem coreEq_p113 (a b c : Rank) (f : Bool)
    (h1 : rankValue a < rankValue b) (h2 : rankValue b < rankValue c) :
    legacyCore [a, b, c, c, c] f = jobCore [a, b, c, c, c] f := by
  have nab := rank_ne_of_rankValue_lt h1
  have nac := rank_ne_of_rankValue_lt (Nat.lt_trans h1 h2)
  have nbc := rank_ne_of_rankValue_lt h2
  have vab := Nat.ne_of_lt (V_lt_of_rankValue_lt h1)
  have vac := Nat.ne_of_lt (V_lt_of_rankValue_lt (Nat.lt_trans h1 h2))
  have vbc := Nat.ne_of_lt (V_lt_of_rankValue_lt h2)
  have hroy : isRoyalRanks [a, b, c, c, c] = false :=
    isRoyalRanks_eq_false_of_dup (by rfl) (by simp)
  have hls : legacyCheckStraight [a, b, c, c, c] = false := by
    simp [legacyCheckStraight]
    rintro _ _ rfl h
    exact absurd h (by decide)
  have hu : uniq [V a, V b, V c, V c, V c] = [V a, V b, V c] := by
    simp [uniq, vab, vac, vbc, vab.symm, vac.symm, vbc.symm]
  have hjs : isStraightVals [V a, V b, V c, V c, V c] = false := by
    simp only [isStraightVals, hu, List.length_insertionSort, List.length_cons,
      List.length_nil]
    rfl
  simp [legacyCore, jobCore, jobCounts, legacyHasOfAKind, legacyHasFullHouse,
    legacyHasTwoPair, legacyHasJacksOrBetter, uniq, hroy, hls, hjs,
    List.insertionSort, List.orderedInsert, nab, nac, nbc, nab.symm, nac.symm, nbc.symm]

theorem coreEq_p221 (a c e : Rank) (f : Bool)
    (h1 : rankValue a < rankValue c) (h2 : rankValue c < rankValue e) :
    legacyCore [a, a, c, c, e] f = jobCore [a, a, c, c, e] f := by
  have nac := rank_ne_of_rankValue_lt h1
  have nae := rank_ne_of_rankValue_lt (Nat.lt_trans h1 h2)
  have nce := rank_ne_of_rankValue_lt h2
  have vac := Nat.ne_of_lt (V_lt_of_rankValue_lt h1)
  have vae := Nat.ne_of_lt (V_lt_of_rankValue_lt (Nat.lt_trans h1 h2))
  have vce := Nat.ne_of_lt (V_lt_of_rankValue_lt h2)
  have hroy : isRoyalRanks [a, a, c, c, e] = false :=
    isRoyalRanks_eq_false_of_dup (by rfl) (by simp)
  have hls : legacyCheckStraight [a, a, c, c, e] = false := by
    simp [legacyCheckStraight]
    rintro rfl h
    exact absurd h (by decide)
  have hu : uniq [V a, V a, V c, V c, V e] = [V a, V c, V e] := by
    simp [uniq, vac, vae, vce, vac.symm, vae.symm, vce.symm]
  have hjs : isStraightVals [V a, V a, V c, V c, V e] = false := by
    simp only [isStraightVals, hu, List.length_insertionSort, List.length_cons,
      List.length_nil]
    rfl
  simp [legacyCore, jobCore, jobCounts, legacyHasOfAKind, legacyHasFullHouse,
    legacyHasTwoPair, legacyHasJacksOrBetter, uniq, hroy, hls, hjs,
    List.insertionSort, List.orderedInsert, nac, nae, nce, nac.symm, nae.symm, nce.symm]

theorem coreEq_p212 (a c d : Rank) (f : Bool)
    (h1 : rankValue a < rankValue c) (h2 : rankValue c < rankValue d) :
    legacyCore [a, a, c, d, d] f = jobCore [a, a, c, d, d] f := by
  have nac := rank_ne_of_rankValue_lt h1
  have nad := rank_ne_of_rankValue_lt (Nat.lt_trans h1 h2)
  have ncd := rank_ne_of_rankValue_lt h2
  have vac := Nat.ne_of_lt (V_lt_of_rankValue_lt h1)
  have vad := Nat.ne_of_lt (V_lt_of_rankValue_lt (Nat.lt_trans h1 h2))
  have vcd := Nat.ne_of_lt (V_lt_of_rankValue_lt h2)
  have hroy : isRoyalRanks [a, a, c, d, d] = false :=
    isRoyalRanks_eq_false_of_dup (by rfl) (by simp)
  have hls : legacyCheckStraight [a, a, c, d, d] = false := by
    simp [legacyCheckStraight]
    rintro rfl h
    exact absurd h (by decide)
  have hu : uniq [V a, V a, V c, V d, V d] = [V a, V c, V d] := by
    simp [uniq, vac, vad, vcd, vac.symm, vad.symm, vcd.symm]
  have hjs : isStraightVals [V a, V a, V c, V d, V d] = false := by
    simp only [isStraightVals, hu, List.length_insertionSort, List.length_cons,
      List.length_nil]
    rfl
  simp [legacyCore, jobCore, jobCounts, legacyHasOfAKind, legacyHasFullHouse,
    legacyHasTwoPair, legacyHasJacksOrBetter, uniq, hroy, hls, hjs,
    List.insertionSort, List.orderedInsert, nac, nad, ncd, nac.symm, nad.symm, ncd.symm]

theorem coreEq_p122 (a b d : Rank) (f : Bool)
    (h1 : rankValue a < rankValue b) (h2 : rankValue b < rankValue d) :
    legacyCore [a, b, b, d, d] f = jobCore [a, b, b, d, d] f := by
  have nab := rank_ne_of_rankValue_lt h1
  have nad := rank_ne_of_rankValue_lt (Nat.lt_trans h1 h2)
  have nbd := rank_ne_of_rankValue_lt h2
  have vab := Nat.ne_of_lt (V_lt_of_rankValue_lt h1)
  have vad := Nat.ne_of_lt (V_lt_of_rankValue_lt (Nat.lt_trans h1 h2))
  have vbd := Nat.ne_of_lt (V_lt_of_rankValue_lt h2)
  have hroy : isRoyalRanks [a, b, b, d, d] = false :=
    isRoyalRanks_eq_false_of_dup (by rfl) (by simp)
  have hls : legacyCheckStraight [a, b, b, d, d] = false := by
    simp [legacyCheckStraight]
    rintro _ rfl h
    exact absurd h (by decide)
  have hu : uniq [V a, V b, V b, V d, V d] = [V a, V b, V d] := by
    simp [uniq, vab, vad, vbd, vab.symm, vad.symm, vbd.symm]
  have hjs : isStraightVals [V a, V b, V b, V d, V d] = false := by
    simp only [isStraightVals, hu, List.length_insertionSort, List.length_cons,
      List.length_nil]
    rfl
  simp [legacyCore, jobCore, jobCounts, legacyHasOfAKind, legacyHasFullHouse,
    legacyHasTwoPair, legacyHasJacksOrBetter, uniq, hroy, hls, hjs,
    List.insertionSort, List.orderedInsert, nab, nad, nbd, nab.symm, nad.symm, nbd.symm]

theorem coreEq_p1211 (a b d e : Rank) (f : Bool)
    (h1 : rankValue a < rankValue b) (h2 : rankValue b < rankValue d)
    (h3 : rankValue d < rankValue e) :
    legacyCore [a, b, b, d, e] f = jobCore [a, b, b, d, e] f := by
  have nab := rank_ne_of_rankValue_lt h1
  have nad := rank_ne_of_rankValue_lt (Nat.lt_trans h1 h2)
  have nae := rank_ne_of_rankValue_lt (Nat.lt_trans h1 (Nat.lt_trans h2 h3))
  have nbd := rank_ne_of_rankValue_lt h2
  have nbe := rank_ne_of_rankValue_lt (Nat.lt_trans h2 h3)
  have nde := rank_ne_of_rankValue_lt h3
  have vab := Nat.ne_of_lt (V_lt_of_rankValue_lt h1)
  have vad := Nat.ne_of_lt (V_lt_of_rankValue_lt (Nat.lt_trans h1 h2))
  have vae := Nat.ne_of_lt (V_lt_of_rankValue_lt (Nat.lt_trans h1 (Nat.lt_trans h2 h3)))
  have vbd := Nat.ne_of_lt (V_lt_of_rankValue_lt h2)
  have vbe := Nat.ne_of_lt (V_lt_of_rankValue_lt (Nat.lt_trans h2 h3))
  have vde := Nat.ne_of_lt (V_lt_of_rankValue_lt h3)
  have hroy : isRoyalRanks [a, b, b, d, e] = false :=
    isRoyalRanks_eq_false_of_dup (by rfl) (by simp)
  have hls : legacyCheckStraight [a, b, b, d, e] = false := by
    simp [legacyCheckStraight]
    rintro _ rfl h
    exact absurd h (by decide)
  have hu : uniq [V a, V b, V b, V d, V e] = [V a, V b, V d, V e] := by
    simp [uniq, vab, vad, vae, vbd, vbe, vde, vab.symm, vad.symm, vae.symm,
      vbd.symm, vbe.symm, vde.symm]
  have hjs : isStraightVals [V a, V b, V b, V d, V e] = false := by
    simp only [isStraightVals, hu, List.length_insertionSort, List.length_cons,
      List.length_nil]
    rfl
  simp [legacyCore, jobCore, jobCounts, legacyHasOfAKind, legacyHasFullHouse,
    legacyHasTwoPair, legacyHasJacksOrBetter, uniq, hroy, hls, hjs,
    List.insertionSort, List.orderedInsert, nab, nad, nae, nbd, nbe, nde,
    nab.symm, nad.symm, nae.symm, nbd.symm, nbe.symm, nde.symm]

theorem coreEq_p1121 (a b c e : Rank) (f : Bool)
    (h1 : rankValue a < rankValue b) (h2 : rankValue b < rankValue c)
    (h3 : rankValue c < rankValue e) :
    legacyCore [a, b, c, c, e] f = jobCore [a, b, c, c, e] f := by
  have nab := rank_ne_of_rankValue_lt h1
  have nac := rank_ne_of_rankValue_lt (Nat.lt_trans h1 h2)
  have nae := rank_ne_of_rankValue_lt (Nat.lt_trans h1 (Nat.lt_trans h2 h3))
  have nbc := rank_ne_of_rankValue_lt h2
  have nbe := rank_ne_of_rankValue_lt (Nat.lt_trans h2 h3)
  have nce := rank_ne_of_rankValue_lt h3
  have vab := Nat.ne_of_lt (V_lt_of_rankValue_lt h1)
  have vac := Nat.ne_of_lt (V_lt_of_rankValue_lt (Nat.lt_trans h1 h2))
  have vae := Nat.ne_of_lt (V_lt_of_rankValue_lt (Nat.lt_trans h1 (Nat.lt_trans h2 h3)))
  have vbc := Nat.ne_of_lt (V_lt_of_rankValue_lt h2)
  have vbe := Nat.ne_of_lt (V_lt_of_rankValue_lt (Nat.lt_trans h2 h3))
  have vce := Nat.ne_of_lt (V_lt_of_rankValue_lt h3)
  have hroy : isRoyalRanks [a, b, c, c, e] = false :=
    isRoyalRanks_eq_false_of_dup (by rfl) (by simp)
  have hls : legacyCheckStraight [a, b, c, c, e] = false := by
    simp [legacyCheckStraight]
    rintro _ _ rfl h
    exact absurd h (by decide)
  have hu : uniq [V a, V b, V c, V c, V e] = [V a, V b, V c, V e] := by
    simp [uniq, vab, vac, vae, vbc, vbe, vce, vab.symm, vac.symm, vae.symm,
      vbc.symm, vbe.symm, vce.symm]
  have hjs : isStraightVals [V a, V b, V c, V c, V e] = false := by
    simp only [isStraightVals, hu, List.length_insertionSort, List.length_cons,
      List.length_nil]
    rfl
  simp [legacyCore, jobCore, jobCounts, legacyHasOfAKind, legacyHasFullHouse,
    legacyHasTwoPair, legacyHasJacksOrBetter, uniq, hroy, hls, hjs,
    List.insertionSort, List.orderedInsert, nab, nac, nae, nbc, nbe, nce,
    nab.symm, nac.symm, nae.symm, nbc.symm, nbe.symm, nce.symm]

theorem coreEq_p1112 (a b c d : Rank) (f : Bool)
    (h1 : rankValue a < rankValue b) (h2 : rankValue b < rankValue c)
    (h3 : rankValue c < rankValue d) :
    legacyCore [a, b, c, d, d] f = jobCore [a, b, c, d, d] f := by
  have nab := rank_ne_of_rankValue_lt h1
  have nac := rank_ne_of_rankValue_lt (Nat.lt_trans h1 h2)
  have nad := rank_ne_of_rankValue_lt (Nat.lt_trans h1 (Nat.lt_trans h2 h3))
  have nbc := rank_ne_of_rankValue_lt h2
  have nbd := rank_ne_of_rankValue_lt (Nat.lt_trans h2 h3)
  have ncd := rank_ne_of_rankValue_lt h3
  have vab := Nat.ne_of_lt (V_lt_of_rankValue_lt h1)
  have vac := Nat.ne_of_lt (V_lt_of_rankValue_lt (Nat.lt_trans h1 h2))
  have vad := Nat.ne_of_lt (V_lt_of_rankValue_lt (Nat.lt_trans h1 (Nat.lt_trans h2 h3)))
  have vbc := Nat.ne_of_lt (V_lt_of_rankValue_lt h2)
  have vbd := Nat.ne_of_lt (V_lt_of_rankValue_lt (Nat.lt_trans h2 h3))
  have vcd := Nat.ne_of_lt (V_lt_of_rankValue_lt h3)
  have hroy : isRoyalRanks [a, b, c, d, d] = false :=
    isRoyalRanks_eq_false_of_dup (by rfl) (by simp)
  have hls : legacyCheckStraight [a, b, c, d, d] = false := by
    simp [legacyCheckStraight]
    rintro _ _ _ rfl
    decide
  have hu : uniq [V a, V b, V c, V d, V d] = [V a, V b, V c, V d] := by
    simp [uniq, vab, vac, vad, vbc, vbd, vcd, vab.symm, vac.symm, vad.symm,
      vbc.symm, vbd.symm, vcd.symm]
  have hjs : isStraightVals [V a, V b, V c, V d, V d] = false := by
    simp only [isStraightVals, hu, List.length_insertionSort, List.length_cons,
      List.length_nil]
    rfl
  simp [legacyCore, jobCore, jobCounts, legacyHasOfAKind, legacyHasFullHouse,
    legacyHasTwoPair, legacyHasJacksOrBetter, uniq, hroy, hls, hjs,
    List.insertionSort, List.orderedInsert, nab, nac, nad, nbc, nbd, ncd,
    nab.symm, nac.symm, nad.symm, nbc.symm, nbd.symm, ncd.symm]

theorem coreEq_p11111 (a b c d e : Rank) (f : Bool)
    (h1 : rankValue a < rankValue b) (h2 : rankValue b < rankValue c)
    (h3 : rankValue c < rankValue d) (h4 : rankValue d < rankValue e) :
    legacyCore [a, b, c, d, e] f = jobCore [a, b, c, d, e] f := by
  have nab := rank_ne_of_rankValue_lt h1
  have nac := rank_ne_of_rankValue_lt (Nat.lt_trans h1 h2)
  have nad := rank_ne_of_rankValue_lt (Nat.lt_trans h1 (Nat.lt_trans h2 h3))
  have nae := rank_ne_of_rankValue_lt
    (Nat.lt_trans h1 (Nat.lt_trans h2 (Nat.lt_trans h3 h4)))
  have nbc := rank_ne_of_rankValue_lt h2
  have nbd := rank_ne_of_rankValue_lt (Nat.lt_trans h2 h3)
  have nbe := rank_ne_of_rankValue_lt (Nat.lt_trans h2 (Nat.lt_trans h3 h4))
  have ncd := rank_ne_of_rankValue_lt h3
  have nce := rank_ne_of_rankValue_lt (Nat.lt_trans h3 h4)
  have nde := rank_ne_of_rankValue_lt h4
  have hsorted : List.Sorted rankLE [a, b, c, d, e] := by
    refine List.Pairwise.cons ?_ (List.Pairwise.cons ?_ (List.Pairwise.cons ?_
      (List.Pairwise.cons ?_ (List.Pairwise.cons ?_ List.Pairwise.nil)))) <;>
      (intro x hx; fin_cases hx) <;> (unfold rankLE; omega)
  have hst := ls_eq_js_distinct a b c d e h1 h2 h3 h4
  by_cases hry : ([a, b, c, d, e] : List Rank) = [Rank.r10, .J, .Q, .K, .A]
  · injection hry with g1 hry
    injection hry with g2 hry
    injection hry with g3 hry
    injection hry with g4 hry
    injection hry with g5 _
    subst g1; subst g2; subst g3; subst g4; subst g5
    cases f <;> rfl
  · have ha10 : a ≠ Rank.r10 := by
      rintro rfl
      have h10 : rankValue Rank.r10 = 8 := rfl
      have hle := rankValue_le_12 e
      have hb9 : rankValue b = 9 := by omega
      have hc10 : rankValue c = 10 := by omega
      have hd11 : rankValue d = 11 := by omega
      have he12 : rankValue e = 12 := by omega
      have hbJ : b = Rank.J := rank_eq_of_rankValue_eq (by rw [hb9]; rfl)
      have hcQ : c = Rank.Q := rank_eq_of_rankValue_eq (by rw [hc10]; rfl)
      have hdK : d = Rank.K := rank_eq_of_rankValue_eq (by rw [hd11]; rfl)
      have heA : e = Rank.A := rank_eq_of_rankValue_eq (by rw [he12]; rfl)
      exact hry (by rw [hbJ, hcQ, hdK, heA])
    have hroyF : isRoyalRanks [a, b, c, d, e] = false := by
      cases hr : isRoyalRanks [a, b, c, d, e] with
      | false => rfl
      | true => exact absurd (isRoyalRanks_sorted_eq (by rfl) hsorted hr) hry
    simp [legacyCore, jobCore, jobCounts, legacyHasOfAKind, legacyHasFullHouse,
      legacyHasTwoPair, legacyHasJacksOrBetter, uniq, hroyF, ← hst,
      List.insertionSort, List.orderedInsert, nab, nac, nad, nae, nbc, nbd, nbe,
      ncd, nce, nde, nab.symm, nac.symm, nad.symm, nae.symm, nbc.symm, nbd.symm,
      nbe.symm, ncd.symm, nce.symm, nde.symm, ha10]

theorem core_eq_sorted (a b c d e : Rank) (f : Bool)
    (hab : rankValue a ≤ rankValue b) (hbc : rankValue b ≤ rankValue c)
    (hcd : rankValue c ≤ rankValue d) (hde : rankValue d ≤ rankValue e) :
    legacyCore [a, b, c, d, e] f = jobCore [a, b, c, d, e] f := by
  rcases Nat.eq_or_lt_of_le hab with g1 | g1
  · have hb : a = b := rank_eq_of_rankValue_eq g1
    subst hb
    rcases Nat.eq_or_lt_of_le hbc with g2 | g2
    · have hc : a = c := rank_eq_of_rankValue_eq g2
      subst hc
      rcases Nat.eq_or_lt_of_le hcd with g3 | g3
      · have hd : a = d := rank_eq_of_rankValue_eq g3
        subst hd
        rcases Nat.eq_or_lt_of_le hde with g4 | g4
        · have he : a = e := rank_eq_of_rankValue_eq g4
          subst he
          exact coreEq_p5 a f
        · exact coreEq_p41 a e f g4
      · rcases Nat.eq_or_lt_of_le hde with g4 | g4
        · have he : d = e := rank_eq_of_rankValue_eq g4
          subst he
          exact coreEq_p32 a d f g3
        · exact coreEq_p311 a d e f g3 g4
    · rcases Nat.eq_or_lt_of_le hcd with g3 | g3
      · have hd : c = d := rank_eq_of_rankValue_eq g3
        subst hd
        rcases Nat.eq_or_lt_of_le hde with g4 | g4
        · have he : c = e := rank_eq_of_rankValue_eq g4
          subst he
          exact coreEq_p23 a c f g2
        · exact coreEq_p221 a c e f g2 g4
      · rcases Nat.eq_or_lt_of_le hde with g4 | g4
        · have he : d = e := rank_eq_of_rankValue_eq g4
          subst he
          exact coreEq_p212 a c d f g2 g3
        · exact coreEq_p2111 a c d e f g2 g3 g4
  · rcases Nat.eq_or_lt_of_le hbc with g2 | g2
    · have hc : b = c := rank_eq_of_rankValue_eq g2
      subst hc
      rcases Nat.eq_or_lt_of_le hcd with g3 | g3
      · have hd : b = d := rank_eq_of_rankValue_eq g3
        subst hd
        rcases Nat.eq_or_lt_of_le hde with g4 | g4
        · have he : b = e := rank_eq_of_rankValue_eq g4
          subst he
          exact coreEq_p14 a b f g1
        · exact coreEq_p131 a b e f g1 g4
      · rcases Nat.eq_or_lt_of_le hde with g4 | g4
        · have he : d = e := rank_eq_of_rankValue_eq g4
          subst he
          exact coreEq_p122 a b d f g1 g3
        · exact coreEq_p1211 a b d e f g1 g3 g4
    · rcases Nat.eq_or_lt_of_le hcd with g3 | g3
      · have hd : c = d := rank_eq_of_rankValue_eq g3
        subst hd
        rcases Nat.eq_or_lt_of_le hde with g4 | g4
        · have he : c = e := rank_eq_of_rankValue_eq g4
          subst he
          exact coreEq_p113 a b c f g1 g2
        · exact coreEq_p1121 a b c e f g1 g2 g4
      · rcases Nat.eq_or_lt_of_le hde with g4 | g4
        · have he : d = e := rank_eq_of_rankValue_eq g4
          subst he
          exact coreEq_p1112 a b c d f g1 g2 g3
        · exact coreEq_p11111 a b c d e f g1 g2 g3 g4

theorem length5_destruct {α : Type} (l : List α) (h : l.length = 5) :
    ∃ a b c d e, l = [a, b, c, d, e] := by
  rcases l with _ | ⟨a, l⟩
  · simp at h
  rcases l with _ | ⟨b, l⟩
  · simp at h
  rcases l with _ | ⟨c, l⟩
  · simp at h
  rcases l with _ | ⟨d, l⟩
  · simp at h
  rcases l with _ | ⟨e, l⟩
  · simp at h
  rcases l with _ | ⟨x, l⟩
  · exact ⟨a, b, c, d, e, rfl⟩
  · simp at h

/-- **C10.** The legacy `evaluateHand` of `evaluate.ts` and `evaluateHandJOB`
of `job.ts` classify every 5-card hand identically (under the identification
of the ten standard labels). -/
theorem C10_legacy_job_equivalence (hand : List Card) (h5 : hand.length = 5) :
    evaluateHand hand = evaluateHandJOB hand := by
  unfold evaluateHand evaluateHandJOB
  have hperm : ((hand.map (fun c => c.rank)).insertionSort rankLE).Perm
      (hand.map (fun c => c.rank)) := List.perm_insertionSort _ _
  rw [jobCore_perm hperm.symm (isFlush hand)]
  have hlen : ((hand.map (fun c => c.rank)).insertionSort rankLE).length = 5 := by
    rw [List.length_insertionSort, List.length_map, h5]
  have hsorted := List.sorted_insertionSort rankLE (hand.map (fun c => c.rank))
  obtain ⟨a, b, c, d, e, heq⟩ := length5_destruct _ hlen
  rw [heq] at hsorted ⊢
  rw [List.sorted_cons] at hsorted
  obtain ⟨ha, hsorted⟩ := hsorted
  rw [List.sorted_cons] at hsorted
  obtain ⟨hb, hsorted⟩ := hsorted
  rw [List.sorted_cons] at hsorted
  obtain ⟨hc, hsorted⟩ := hsorted
  rw [List.sorted_cons] at hsorted
  obtain ⟨hd, _⟩ := hsorted
  exact core_eq_sorted a b c d e _ (ha b (by simp)) (hb c (by simp)) (hc d (by simp))
    (hd e (by simp))

/-- A concrete full house: the two classifiers agree on it. -/
def handC10 : List Card :=
  [⟨Rank.K, Suit.spades⟩, ⟨Rank.K, Suit.hearts⟩, ⟨Rank.r4, Suit.clubs⟩,
   ⟨Rank.K, Suit.diamonds⟩, ⟨Rank.r4, Suit.spades⟩]

/-- Witness for C10 at a concrete hand. -/
theorem C10_witness :
    handC10.length = 5 ∧ evaluateHand handC10 = evaluateHandJOB handC10 :=
  ⟨by decide, C10_legacy_job_equivalence handC10 (by decide)⟩


end VP
